import Mathlib

/-!
Verification of the Countdown Numbers Game engine
(`src/games/solver.py`, `src/games/expression_parser.py`, `src/games/countdown.py`)
against its natural-language specification.

Python integers are modelled as `ℤ`; Python floats produced by `/` on game
numbers are modelled exactly as `ℚ`; Python `//` and `%` are modelled by
`Int.fdiv` / `Int.fmod` (floor division, sign of divisor), matching Python
semantics.
-/

namespace Countdown

/-! ## Solver (`src/games/solver.py`, `CountdownSolver`)

The solver carries `(value, expression_string)` pairs.  The strings are only
ever built (by concatenation), never inspected, so the expression component is
modelled as an inductive tree `CExpr` whose rendering would be the source's
string; the search control flow is unchanged. -/

inductive CExpr where
  | lit (n : ℤ)
  | add (a b : CExpr)
  | mul (a b : CExpr)
  | sub (a b : CExpr)
  | div (a b : CExpr)
deriving DecidableEq, Repr

/-- Evaluation of a solver expression with exact (rational) division; on every
expression the solver builds, division is exact, so this agrees with the
integer value the solver tracks. -/
def evalQ : CExpr → ℚ
  | .lit n => (n : ℚ)
  | .add a b => evalQ a + evalQ b
  | .mul a b => evalQ a * evalQ b
  | .sub a b => evalQ a - evalQ b
  | .div a b => evalQ a / evalQ b

/-- A solver state: the list of `(value, expression)` pairs
(`current_numbers` in `_recursive_solve`). -/
abbrev St := List (ℤ × CExpr)

/-- The `nonlocal` best-so-far of `solve`: `best_expression`, `best_result`,
`best_diff`. -/
structure Best where
  expr : Option CExpr
  result : ℤ
  diff : ℤ
deriving DecidableEq, Repr

/-- Walk the list with position counter `k`, dropping positions `i` and `j`:
the comprehension
`[current_numbers[k] for k in range(len(current_numbers)) if k != i and k != j]`. -/
def removeIdx2 {α : Type} (i j : Nat) : Nat → List α → List α
  | _, [] => []
  | k, x :: xs =>
    if k = i ∨ k = j then removeIdx2 i j (k + 1) xs
    else x :: removeIdx2 i j (k + 1) xs

/-- Elements at positions `i` and `j` removed. -/
def remove2 {α : Type} (s : List α) (i j : Nat) : List α := removeIdx2 i j 0 s

/-- The candidate successor states produced by the pair loop of
`_recursive_solve`, in exact source order: for each ordered pair `(i, j)` with
`i ≠ j`, try `+` (only `i < j`), `*` (only `i < j`, no operand 1), `-` (only
`val1 > val2`), `/` (only `val2 > 1` and exact). -/
def cands (s : St) : List St :=
  (List.range s.length).flatMap (fun i =>
    (List.range s.length).flatMap (fun j =>
      if i = j then [] else
      match s.get? i, s.get? j with
      | some (v1, e1), some (v2, e2) =>
        let rem := remove2 s i j
        (if i < j then [rem ++ [(v1 + v2, CExpr.add e1 e2)]] else []) ++
        (if i < j ∧ v1 ≠ 1 ∧ v2 ≠ 1 then [rem ++ [(v1 * v2, CExpr.mul e1 e2)]] else []) ++
        (if v2 < v1 then [rem ++ [(v1 - v2, CExpr.sub e1 e2)]] else []) ++
        (if 1 < v2 ∧ Int.fmod v1 v2 = 0 then [rem ++ [(Int.fdiv v1 v2, CExpr.div e1 e2)]] else [])
      | _, _ => []))

/-- The check loop at the head of `_recursive_solve`: scan the current values,
updating the best when strictly closer, returning early (flag `true`) on an
exact hit. -/
def checkVals (target : ℤ) : St → Best → Best × Bool
  | [], b => (b, false)
  | (v, e) :: rest, b =>
    let d := |target - v|
    if d < b.diff then
      let b' : Best := ⟨some e, v, d⟩
      if d = 0 then (b', true) else checkVals target rest b'
    else checkVals target rest b

/-- The body of `_recursive_solve`; the returned flag is the Python boolean
(`True` = exact match found, stop): once it is set, the remaining candidate
states are skipped, mirroring the `if _recursive_solve(...): return True`
chains.  The fuel argument is a structural bound on recursion depth; every
recursive call is on a strictly shorter state, so `fuel = s.length` never runs
out (each candidate replaces two entries by one). -/
def search (target : ℤ) : Nat → St → Best → Best × Bool
  | 0, s, b => checkVals target s b
  | n + 1, s, b =>
    match checkVals target s b with
    | (b1, true) => (b1, true)
    | (b1, false) =>
      if s.length ≤ 1 then (b1, false)
      else (cands s).foldl
        (fun acc c => if acc.2 then acc else search target n c acc.1) (b1, false)

/-- `CountdownSolver.solve`: initial best is
`(None, 0, target)`; the initial state is one literal pair per input number. -/
def solve (target : ℤ) (numbers : List ℤ) : Option CExpr × ℤ :=
  let s : St := numbers.map (fun n => (n, CExpr.lit n))
  let b := (search target numbers.length s ⟨none, 0, target⟩).1
  (b.expr, b.result)

/-! ### Reachability: the states and values the solver's search space contains -/

/-- `Steps s u`: the search of `_recursive_solve` started at state `s` can reach
state `u` by repeatedly combining two numbers (one candidate step per
`cands`). -/
inductive Steps : St → St → Prop
  | refl (s : St) : Steps s s
  | head {s c u : St} : c ∈ cands s → Steps c u → Steps s u

/-- A value is achievable from state `s` if some reachable state contains it. -/
def ReachVal (s : St) (v : ℤ) : Prop :=
  ∃ u : St, Steps s u ∧ ∃ e : CExpr, (v, e) ∈ u

/-- Every `(value, expression)` pair of the state evaluates correctly. -/
def VState (s : St) : Prop := ∀ p ∈ s, evalQ p.2 = (p.1 : ℚ)

/-- Invariant of the best-so-far triple: either still the initial
`(None, 0, target)`, or a recorded expression that evaluates to the recorded
achievable result at the recorded distance. -/
def Sound (target : ℤ) (s0 : St) (b : Best) : Prop :=
  (b.expr = none ∧ b.result = 0 ∧ b.diff = target) ∨
  (∃ e, b.expr = some e ∧ evalQ e = (b.result : ℚ) ∧ ReachVal s0 b.result ∧
    b.diff = |target - b.result|)

theorem Steps.snoc {s0 s c : St} (h : Steps s0 s) (hc : c ∈ cands s) : Steps s0 c := by
  induction h with
  | refl s => exact Steps.head hc (Steps.refl c)
  | head h1 _ ih => exact Steps.head h1 (ih hc)

/-! ### Position-removal lemmas -/

theorem removeIdx2_id {α : Type} {i j : Nat} :
    ∀ (l : List α) (k : Nat), i < k → j < k → removeIdx2 i j k l = l := by
  intro l
  induction l with
  | nil => intro k _ _; rfl
  | cons z zs ih =>
    intro k hi hj
    have hki : ¬(k = i ∨ k = j) := by
      rintro (rfl | rfl) <;> omega
    simp only [removeIdx2, if_neg hki]
    exact congrArg (z :: ·) (ih (k + 1) (by omega) (by omega))

theorem removeIdx2_comm {α : Type} {i j : Nat} :
    ∀ (l : List α) (k : Nat), removeIdx2 i j k l = removeIdx2 j i k l := by
  intro l
  induction l with
  | nil => intro k; rfl
  | cons z zs ih =>
    intro k
    by_cases h : k = i ∨ k = j
    · simp only [removeIdx2, if_pos h, if_pos (Or.symm h)]
      exact ih (k + 1)
    · simp only [removeIdx2, if_neg h, if_neg (fun h' => h (Or.symm h'))]
      exact congrArg (z :: ·) (ih (k + 1))

theorem removeIdx2_perm_right {α : Type} {i j : Nat} {y : α} :
    ∀ (l : List α) (k : Nat), i < k → k ≤ j → l.get? (j - k) = some y →
      (y :: removeIdx2 i j k l).Perm l := by
  intro l
  induction l with
  | nil => intro k _ _ h; simp at h
  | cons z zs ih =>
    intro k hik hkj hget
    by_cases hkj' : k = j
    · have h0 : j - k = 0 := by omega
      rw [h0, List.get?_cons_zero, Option.some_inj] at hget
      have hcond : k = i ∨ k = j := Or.inr hkj'
      simp only [removeIdx2, if_pos hcond]
      rw [removeIdx2_id zs (k + 1) (by omega) (by omega), hget]
    · have hcond : ¬(k = i ∨ k = j) := by rintro (rfl | rfl) <;> omega
      simp only [removeIdx2, if_neg hcond]
      have hget' : zs.get? (j - (k + 1)) = some y := by
        have hs : j - k = (j - (k + 1)) + 1 := by omega
        rwa [hs, List.get?_cons_succ] at hget
      have hp := ih (k + 1) (by omega) (by omega) hget'
      exact (List.Perm.swap z y _).trans (hp.cons z)

theorem removeIdx2_perm_two {α : Type} {i j : Nat} {x y : α} (hij : i ≠ j) :
    ∀ (l : List α) (k : Nat), k ≤ i → k ≤ j → l.get? (i - k) = some x →
      l.get? (j - k) = some y → (x :: y :: removeIdx2 i j k l).Perm l := by
  intro l
  induction l with
  | nil => intro k _ _ h; simp at h
  | cons z zs ih =>
    intro k hki hkj hgx hgy
    by_cases hi : k = i
    · have h0 : i - k = 0 := by omega
      rw [h0, List.get?_cons_zero, Option.some_inj] at hgx
      have hcond : k = i ∨ k = j := Or.inl hi
      simp only [removeIdx2, if_pos hcond]
      have hkj2 : k < j := by
        rcases lt_or_eq_of_le hkj with h | h
        · exact h
        · exact absurd (hi ▸ h : i = j) hij
      have hgy' : zs.get? (j - (k + 1)) = some y := by
        have hs : j - k = (j - (k + 1)) + 1 := by omega
        rwa [hs, List.get?_cons_succ] at hgy
      subst hgx
      exact (removeIdx2_perm_right (i := i) (j := j) zs (k + 1) (by omega) (by omega) hgy').cons z
    · by_cases hj : k = j
      · have h0 : j - k = 0 := by omega
        rw [h0, List.get?_cons_zero, Option.some_inj] at hgy
        have hcond : k = i ∨ k = j := Or.inr hj
        simp only [removeIdx2, if_pos hcond]
        have hki2 : k < i := lt_of_le_of_ne hki hi
        have hgx' : zs.get? (i - (k + 1)) = some x := by
          have hs : i - k = (i - (k + 1)) + 1 := by omega
          rwa [hs, List.get?_cons_succ] at hgx
        subst hgy
        rw [removeIdx2_comm]
        have hp := removeIdx2_perm_right (i := j) (j := i) zs (k + 1) (by omega) (by omega) hgx'
        exact (List.Perm.swap z x _).trans (hp.cons z)
      · have hcond : ¬(k = i ∨ k = j) := by rintro (rfl | rfl) <;> omega
        simp only [removeIdx2, if_neg hcond]
        have hgx' : zs.get? (i - (k + 1)) = some x := by
          have hs : i - k = (i - (k + 1)) + 1 := by omega
          rwa [hs, List.get?_cons_succ] at hgx
        have hgy' : zs.get? (j - (k + 1)) = some y := by
          have hs : j - k = (j - (k + 1)) + 1 := by omega
          rwa [hs, List.get?_cons_succ] at hgy
        have hp := ih (k + 1) (by omega) (by omega) hgx' hgy'
        have s1 : (x :: y :: z :: removeIdx2 i j (k + 1) zs).Perm
            (x :: z :: y :: removeIdx2 i j (k + 1) zs) :=
          (List.Perm.swap z y _).cons x
        have s2 : (x :: z :: y :: removeIdx2 i j (k + 1) zs).Perm
            (z :: x :: y :: removeIdx2 i j (k + 1) zs) :=
          List.Perm.swap z x _
        exact (s1.trans s2).trans (hp.cons z)

theorem remove2_perm {α : Type} {s : List α} {i j : Nat} {x y : α} (hij : i ≠ j)
    (hx : s.get? i = some x) (hy : s.get? j = some y) :
    (x :: y :: remove2 s i j).Perm s :=
  removeIdx2_perm_two hij s 0 (Nat.zero_le i) (Nat.zero_le j)
    (by simpa using hx) (by simpa using hy)

/-! ### Inversion of a candidate step -/

/-- A candidate state is: two entries of `s` removed (in some order `(v1, e1)`,
`(v2, e2)`), one combined entry appended, the combination being one of the four
guarded operations of the source. -/
theorem mem_cands_inv {c : St} {s : St} (h : c ∈ cands s) :
    ∃ (v1 v2 : ℤ) (e1 e2 : CExpr) (rem : St),
      ((v1, e1) :: (v2, e2) :: rem).Perm s ∧
      (c = rem ++ [(v1 + v2, CExpr.add e1 e2)] ∨
       (v1 ≠ 1 ∧ v2 ≠ 1 ∧ c = rem ++ [(v1 * v2, CExpr.mul e1 e2)]) ∨
       (v2 < v1 ∧ c = rem ++ [(v1 - v2, CExpr.sub e1 e2)]) ∨
       (1 < v2 ∧ Int.fmod v1 v2 = 0 ∧ c = rem ++ [(Int.fdiv v1 v2, CExpr.div e1 e2)])) := by
  simp only [cands, List.mem_flatMap, List.mem_range] at h
  obtain ⟨i, hi, j, hj, hmem⟩ := h
  by_cases hij : i = j
  · simp [hij] at hmem
  rw [if_neg hij] at hmem
  obtain ⟨p1, hp1⟩ : ∃ p, s.get? i = some p := ⟨_, List.get?_eq_get hi⟩
  obtain ⟨p2, hp2⟩ : ∃ p, s.get? j = some p := ⟨_, List.get?_eq_get hj⟩
  obtain ⟨v1, e1⟩ := p1
  obtain ⟨v2, e2⟩ := p2
  rw [hp1, hp2] at hmem
  refine ⟨v1, v2, e1, e2, remove2 s i j, remove2_perm hij hp1 hp2, ?_⟩
  simp only [List.mem_append, List.mem_singleton] at hmem
  rcases hmem with ((h1 | h2) | h3) | h4
  · split_ifs at h1 with hg
    · simp at h1; exact Or.inl h1
    · simp at h1
  · split_ifs at h2 with hg
    · simp at h2; exact Or.inr (Or.inl ⟨hg.2.1, hg.2.2, h2⟩)
    · simp at h2
  · split_ifs at h3 with hg
    · simp at h3; exact Or.inr (Or.inr (Or.inl ⟨hg, h3⟩))
    · simp at h3
  · split_ifs at h4 with hg
    · simp at h4; exact Or.inr (Or.inr (Or.inr ⟨hg.1, hg.2, h4⟩))
    · simp at h4

/-- Each candidate step shrinks the state by exactly one entry. -/
theorem cands_length {c s : St} (h : c ∈ cands s) : c.length + 1 = s.length := by
  obtain ⟨v1, v2, e1, e2, rem, hperm, hop⟩ := mem_cands_inv h
  have hl : rem.length + 1 + 1 = s.length := by simpa using hperm.length_eq
  rcases hop with h | ⟨_, _, h⟩ | ⟨_, h⟩ | ⟨_, _, h⟩ <;>
    · rw [h]; simp; omega

/-- Exact division: casting `Int.fdiv` back to `ℚ` recovers true division when
the divisor is positive and the remainder vanishes. -/
theorem fdiv_cast_eq_div {a b : ℤ} (hb : 1 < b) (hmod : Int.fmod a b = 0) :
    ((Int.fdiv a b : ℤ) : ℚ) = (a : ℚ) / (b : ℚ) := by
  have hb0 : (0 : ℤ) ≤ b := by omega
  have hdvd : b ∣ a := by
    have := Int.fmod_eq_emod a hb0
    rw [this] at hmod
    exact Int.dvd_of_emod_eq_zero hmod
  obtain ⟨k, rfl⟩ := hdvd
  have hbne : (b : ℚ) ≠ 0 := by
    have : (0 : ℤ) < b := by omega
    exact_mod_cast this.ne'
  rw [Int.fdiv_eq_ediv _ hb0]
  rw [Int.mul_ediv_cancel_left k (by omega)]
  push_cast
  field_simp

/-- Candidate steps preserve correctness of the value/expression pairs. -/
theorem cands_vstate {c s : St} (h : c ∈ cands s) (hv : VState s) : VState c := by
  obtain ⟨v1, v2, e1, e2, rem, hperm, hop⟩ := mem_cands_inv h
  have h1 : evalQ e1 = (v1 : ℚ) := hv (v1, e1) (hperm.mem_iff.mp (List.mem_cons_self _ _))
  have h2 : evalQ e2 = (v2 : ℚ) :=
    hv (v2, e2) (hperm.mem_iff.mp (List.mem_cons_of_mem _ (List.mem_cons_self _ _)))
  have hrem : ∀ p ∈ rem, evalQ p.2 = (p.1 : ℚ) := fun p hp =>
    hv p (hperm.mem_iff.mp (List.mem_cons_of_mem _ (List.mem_cons_of_mem _ hp)))
  rcases hop with hc | ⟨_, _, hc⟩ | ⟨hlt, hc⟩ | ⟨hb, hmod, hc⟩ <;> subst hc <;>
    intro p hp <;> rcases List.mem_append.mp hp with hp' | hp'
  · exact hrem p hp'
  · simp at hp'; subst hp'; simp [evalQ, h1, h2]
  · exact hrem p hp'
  · simp at hp'; subst hp'; simp [evalQ, h1, h2]
  · exact hrem p hp'
  · simp at hp'; subst hp'; simp [evalQ, h1, h2]
  · exact hrem p hp'
  · simp at hp'; subst hp'
    simp only [evalQ, h1, h2]
    exact (fdiv_cast_eq_div hb hmod).symm

/-- States reachable from a correct state are correct. -/
theorem steps_vstate {s u : St} (h : Steps s u) (hv : VState s) : VState u := by
  induction h with
  | refl s => exact hv
  | head h1 _ ih => exact ih (cands_vstate h1 hv)

/-! ### Properties of the check loop -/

theorem checkVals_diff_mono (t : ℤ) :
    ∀ (s : St) (b : Best), ((checkVals t s b).1).diff ≤ b.diff := by
  intro s
  induction s with
  | nil => intro b; exact le_refl _
  | cons p rest ih =>
    intro b
    obtain ⟨v, e⟩ := p
    simp only [checkVals]
    by_cases hd : |t - v| < b.diff
    · rw [if_pos hd]
      by_cases h0 : |t - v| = 0
      · rw [if_pos h0]; exact le_of_lt hd
      · rw [if_neg h0]
        exact le_trans (ih _) (le_of_lt hd)
    · rw [if_neg hd]; exact ih b

theorem checkVals_diff_le_mem (t : ℤ) :
    ∀ (s : St) (b : Best) {v : ℤ} {e : CExpr}, (v, e) ∈ s →
      ((checkVals t s b).1).diff ≤ |t - v| := by
  intro s
  induction s with
  | nil => intro b v e h; simp at h
  | cons p rest ih =>
    intro b v e hmem
    obtain ⟨w, f⟩ := p
    simp only [checkVals]
    rcases List.mem_cons.mp hmem with heq | hrest
    · obtain ⟨rfl, rfl⟩ := Prod.mk.injEq .. ▸ heq
      by_cases hd : |t - v| < b.diff
      · rw [if_pos hd]
        by_cases h0 : |t - v| = 0
        · rw [if_pos h0]
        · rw [if_neg h0]
          exact checkVals_diff_mono t rest _
      · rw [if_neg hd]
        exact le_trans (checkVals_diff_mono t rest b) (not_lt.mp hd)
    · by_cases hd : |t - w| < b.diff
      · rw [if_pos hd]
        by_cases h0 : |t - w| = 0
        · rw [if_pos h0]; simp [h0]
        · rw [if_neg h0]; exact ih _ hrest
      · rw [if_neg hd]; exact ih b hrest

theorem checkVals_flag (t : ℤ) :
    ∀ (s : St) (b : Best), (checkVals t s b).2 = true → ((checkVals t s b).1).diff = 0 := by
  intro s
  induction s with
  | nil => intro b h; simp [checkVals] at h
  | cons p rest ih =>
    intro b
    obtain ⟨v, e⟩ := p
    simp only [checkVals]
    by_cases hd : |t - v| < b.diff
    · rw [if_pos hd]
      by_cases h0 : |t - v| = 0
      · rw [if_pos h0]; intro _; exact h0
      · rw [if_neg h0]; exact ih _
    · rw [if_neg hd]; exact ih b

theorem checkVals_expr_none (t : ℤ) :
    ∀ (s : St) (b : Best), ((checkVals t s b).1).expr = none → b.expr = none := by
  intro s
  induction s with
  | nil => intro b h; exact h
  | cons p rest ih =>
    intro b
    obtain ⟨v, e⟩ := p
    simp only [checkVals]
    by_cases hd : |t - v| < b.diff
    · rw [if_pos hd]
      by_cases h0 : |t - v| = 0
      · rw [if_pos h0]; intro h; simp at h
      · rw [if_neg h0]
        intro h
        have := ih _ h
        simp at this
    · rw [if_neg hd]; exact ih b

theorem checkVals_improve (t : ℤ) :
    ∀ (s : St) (b : Best), (∃ p ∈ s, |t - p.1| < b.diff) →
      ∃ e', ((checkVals t s b).1).expr = some e' := by
  intro s
  induction s with
  | nil => intro b h; simp at h
  | cons p rest ih =>
    intro b himp
    obtain ⟨w, f⟩ := p
    simp only [checkVals]
    by_cases hd : |t - w| < b.diff
    · rw [if_pos hd]
      by_cases h0 : |t - w| = 0
      · rw [if_pos h0]; exact ⟨f, rfl⟩
      · rw [if_neg h0]
        rcases h : ((checkVals t rest ⟨some f, w, |t - w|⟩).1).expr with _ | e'
        · have := checkVals_expr_none t rest _ h
          simp at this
        · exact ⟨e', rfl⟩
    · rw [if_neg hd]
      obtain ⟨q, hq, hqlt⟩ := himp
      rcases List.mem_cons.mp hq with rfl | hq'
      · exact absurd hqlt hd
      · exact ih b ⟨q, hq', hqlt⟩

theorem checkVals_sound (t : ℤ) (s0 : St) :
    ∀ (s : St) (b : Best),
      (∀ p ∈ s, evalQ p.2 = (p.1 : ℚ) ∧ ReachVal s0 p.1) →
      Sound t s0 b → Sound t s0 (checkVals t s b).1 := by
  intro s
  induction s with
  | nil => intro b _ hb; exact hb
  | cons p rest ih =>
    intro b hmem hb
    obtain ⟨v, e⟩ := p
    have hv := hmem (v, e) (List.mem_cons_self _ _)
    have hrest : ∀ p ∈ rest, evalQ p.2 = (p.1 : ℚ) ∧ ReachVal s0 p.1 :=
      fun q hq => hmem q (List.mem_cons_of_mem _ hq)
    have hb' : Sound t s0 ⟨some e, v, |t - v|⟩ :=
      Or.inr ⟨e, rfl, hv.1, hv.2, rfl⟩
    simp only [checkVals]
    by_cases hd : |t - v| < b.diff
    · rw [if_pos hd]
      by_cases h0 : |t - v| = 0
      · rw [if_pos h0]; exact hb'
      · rw [if_neg h0]; exact ih _ hrest hb'
    · rw [if_neg hd]; exact ih b hrest hb

/-! ### Properties of the recursive search -/

theorem cands_short {s : St} (h : s.length ≤ 1) : cands s = [] := by
  match s with
  | [] => rfl
  | [x] => rfl
  | x :: y :: rest => simp at h

theorem steps_of_cands_nil {s u : St} (hc : cands s = []) (h : Steps s u) : u = s := by
  cases h with
  | refl => rfl
  | head h1 _ => rw [hc] at h1; simp at h1

theorem search_diff_mono (t : ℤ) :
    ∀ (n : Nat) (s : St) (b : Best), ((search t n s b).1).diff ≤ b.diff := by
  intro n
  induction n with
  | zero => intro s b; exact checkVals_diff_mono t s b
  | succ n ih =>
    intro s b
    rcases hcv : checkVals t s b with ⟨b1, flag⟩
    have hb1 : b1.diff ≤ b.diff := by
      have := checkVals_diff_mono t s b
      rw [hcv] at this; exact this
    cases flag with
    | true => simp only [search, hcv]; exact hb1
    | false =>
      simp only [search, hcv]
      by_cases hlen : s.length ≤ 1
      · rw [if_pos hlen]; exact hb1
      · rw [if_neg hlen]
        have hfold : ∀ (cs : List St) (acc : Best × Bool),
            ((cs.foldl (fun acc c => if acc.2 then acc else search t n c acc.1) acc).1).diff ≤
              acc.1.diff := by
          intro cs
          induction cs with
          | nil => intro acc; exact le_refl _
          | cons c rest ihc =>
            intro acc
            simp only [List.foldl_cons]
            by_cases hf : acc.2
            · rw [if_pos hf]; exact ihc acc
            · rw [if_neg hf]
              exact le_trans (ihc _) (ih c acc.1)
        exact le_trans (hfold (cands s) (b1, false)) hb1

theorem foldl_search_diff_mono (t : ℤ) (n : Nat) :
    ∀ (cs : List St) (acc : Best × Bool),
      ((cs.foldl (fun acc c => if acc.2 then acc else search t n c acc.1) acc).1).diff ≤
        acc.1.diff := by
  intro cs
  induction cs with
  | nil => intro acc; exact le_refl _
  | cons c rest ihc =>
    intro acc
    simp only [List.foldl_cons]
    by_cases hf : acc.2
    · rw [if_pos hf]; exact ihc acc
    · rw [if_neg hf]
      exact le_trans (ihc _) (search_diff_mono t n c acc.1)

theorem search_flag (t : ℤ) :
    ∀ (n : Nat) (s : St) (b : Best), (search t n s b).2 = true →
      ((search t n s b).1).diff = 0 := by
  intro n
  induction n with
  | zero => intro s b; exact checkVals_flag t s b
  | succ n ih =>
    intro s b
    rcases hcv : checkVals t s b with ⟨b1, flag⟩
    cases flag with
    | true =>
      simp only [search, hcv]
      intro _
      have := checkVals_flag t s b
      rw [hcv] at this
      exact this rfl
    | false =>
      simp only [search, hcv]
      by_cases hlen : s.length ≤ 1
      · rw [if_pos hlen]; intro h; simp at h
      · rw [if_neg hlen]
        have hfold : ∀ (cs : List St) (acc : Best × Bool),
            (acc.2 = true → acc.1.diff = 0) →
            ((cs.foldl (fun acc c => if acc.2 then acc else search t n c acc.1) acc).2 = true →
              ((cs.foldl (fun acc c => if acc.2 then acc else search t n c acc.1) acc).1).diff = 0) := by
          intro cs
          induction cs with
          | nil => intro acc h; exact h
          | cons c rest ihc =>
            intro acc hacc
            simp only [List.foldl_cons]
            by_cases hf : acc.2
            · rw [if_pos hf]; exact ihc acc hacc
            · rw [if_neg hf]; exact ihc _ (ih c acc.1)
        exact hfold (cands s) (b1, false) (by intro h; simp at h)

theorem search_expr_none (t : ℤ) :
    ∀ (n : Nat) (s : St) (b : Best), ((search t n s b).1).expr = none → b.expr = none := by
  intro n
  induction n with
  | zero => intro s b; exact checkVals_expr_none t s b
  | succ n ih =>
    intro s b
    rcases hcv : checkVals t s b with ⟨b1, flag⟩
    have hb1 : b1.expr = none → b.expr = none := by
      intro h
      have := checkVals_expr_none t s b
      rw [hcv] at this; exact this h
    cases flag with
    | true => simp only [search, hcv]; exact hb1
    | false =>
      simp only [search, hcv]
      by_cases hlen : s.length ≤ 1
      · rw [if_pos hlen]; exact hb1
      · rw [if_neg hlen]
        have hfold : ∀ (cs : List St) (acc : Best × Bool),
            (((cs.foldl (fun acc c => if acc.2 then acc else search t n c acc.1) acc).1).expr = none →
              acc.1.expr = none) := by
          intro cs
          induction cs with
          | nil => intro acc h; exact h
          | cons c rest ihc =>
            intro acc
            simp only [List.foldl_cons]
            by_cases hf : acc.2
            · rw [if_pos hf]; exact ihc acc
            · rw [if_neg hf]
              intro h
              exact ih c acc.1 (ihc _ h)
        intro h
        exact hb1 (hfold (cands s) (b1, false) h)

theorem search_sound (t : ℤ) (s0 : St) (hv0 : VState s0) :
    ∀ (n : Nat) (s : St) (b : Best), Steps s0 s → Sound t s0 b →
      Sound t s0 (search t n s b).1 := by
  have hstate : ∀ (s : St), Steps s0 s → ∀ p ∈ s, evalQ p.2 = (p.1 : ℚ) ∧ ReachVal s0 p.1 := by
    intro s hs p hp
    exact ⟨steps_vstate hs hv0 p hp, ⟨s, hs, p.2, by simpa using hp⟩⟩
  intro n
  induction n with
  | zero => intro s b hs hb; exact checkVals_sound t s0 s b (hstate s hs) hb
  | succ n ih =>
    intro s b hs hb
    rcases hcv : checkVals t s b with ⟨b1, flag⟩
    have hb1 : Sound t s0 b1 := by
      have := checkVals_sound t s0 s b (hstate s hs) hb
      rw [hcv] at this; exact this
    cases flag with
    | true => simp only [search, hcv]; exact hb1
    | false =>
      simp only [search, hcv]
      by_cases hlen : s.length ≤ 1
      · rw [if_pos hlen]; exact hb1
      · rw [if_neg hlen]
        have hfold : ∀ (cs : List St), (∀ c ∈ cs, c ∈ cands s) →
            ∀ (acc : Best × Bool), Sound t s0 acc.1 →
            Sound t s0 ((cs.foldl (fun acc c => if acc.2 then acc else search t n c acc.1) acc).1) := by
          intro cs
          induction cs with
          | nil => intro _ acc h; exact h
          | cons c rest ihc =>
            intro hsub acc hacc
            simp only [List.foldl_cons]
            by_cases hf : acc.2
            · rw [if_pos hf]
              exact ihc (fun c' hc' => hsub c' (List.mem_cons_of_mem _ hc')) acc hacc
            · rw [if_neg hf]
              refine ihc (fun c' hc' => hsub c' (List.mem_cons_of_mem _ hc')) _ ?_
              exact ih c acc.1 (hs.snoc (hsub c (List.mem_cons_self _ _))) hacc
        exact hfold (cands s) (fun c hc => hc) (b1, false) hb1

theorem reachval_inv {s : St} {v : ℤ} (h : ReachVal s v) :
    (∃ e, (v, e) ∈ s) ∨ ∃ c ∈ cands s, ReachVal c v := by
  obtain ⟨u, hsteps, e, hmem⟩ := h
  cases hsteps with
  | refl => exact Or.inl ⟨e, hmem⟩
  | head h1 h2 => exact Or.inr ⟨_, h1, _, h2, e, hmem⟩

theorem search_opt (t : ℤ) :
    ∀ (n : Nat) (s : St) (b : Best), s.length ≤ n → ∀ v, ReachVal s v →
      ((search t n s b).1).diff ≤ |t - v| := by
  intro n
  induction n with
  | zero =>
    intro s b hlen v hreach
    interval_cases hs : s.length
    · have hnil : s = [] := List.length_eq_zero.mp hs
      subst hnil
      rcases reachval_inv hreach with ⟨e, he⟩ | ⟨c, hc, _⟩
      · simp at he
      · rw [cands_short (by simp)] at hc; simp at hc
  | succ n ih =>
    intro s b hlen v hreach
    rcases hcv : checkVals t s b with ⟨b1, flag⟩
    cases flag with
    | true =>
      simp only [search, hcv]
      have := checkVals_flag t s b
      rw [hcv] at this
      rw [this rfl]
      positivity
    | false =>
      simp only [search, hcv]
      by_cases hlen1 : s.length ≤ 1
      · rw [if_pos hlen1]
        have hu : ∀ u, Steps s u → u = s := fun u h => steps_of_cands_nil (cands_short hlen1) h
        obtain ⟨u, hsteps, e, hmem⟩ := hreach
        rw [hu u hsteps] at hmem
        have := checkVals_diff_le_mem t s b hmem
        rw [hcv] at this; exact this
      · rw [if_neg hlen1]
        rcases reachval_inv hreach with ⟨e, he⟩ | ⟨c, hc, hcr⟩
        · -- the value is already in the current state: bounded by the check loop,
          -- and the fold only decreases the best distance
          have h1 : b1.diff ≤ |t - v| := by
            have := checkVals_diff_le_mem t s b he
            rw [hcv] at this; exact this
          exact le_trans (foldl_search_diff_mono t n (cands s) (b1, false)) h1
        · -- the value needs at least one more combination step: the fold visits
          -- the needed candidate unless an exact hit already stopped the search
          have hfold : ∀ (cs : List St), (∀ c' ∈ cs, c' ∈ cands s) →
              ∀ (acc : Best × Bool), (acc.2 = true → acc.1.diff = 0) →
              (c ∈ cs) →
              ((cs.foldl (fun acc c => if acc.2 then acc else search t n c acc.1) acc).1).diff ≤
                |t - v| := by
            intro cs
            induction cs with
            | nil => intro _ acc _ h; simp at h
            | cons c' rest ihc =>
              intro hsub acc hinv hmem
              simp only [List.foldl_cons]
              have hmono := foldl_search_diff_mono t n rest
              by_cases hf : acc.2
              · rw [if_pos hf]
                have h0 : acc.1.diff = 0 := hinv hf
                calc ((rest.foldl _ acc).1).diff ≤ acc.1.diff := hmono acc
                  _ = 0 := h0
                  _ ≤ |t - v| := by positivity
              · rw [if_neg hf]
                rcases List.mem_cons.mp hmem with rfl | hrest
                · have hlc : c.length ≤ n := by
                    have := cands_length (hsub c (List.mem_cons_self _ _))
                    omega
                  have hopt := ih c acc.1 hlc v hcr
                  exact le_trans (hmono _) hopt
                · exact ihc (fun x hx => hsub x (List.mem_cons_of_mem _ hx)) _
                    (search_flag t n c' acc.1) hrest
          exact hfold (cands s) (fun x hx => hx) (b1, false) (by intro h; simp at h) hc

theorem search_improve (t : ℤ) :
    ∀ (n : Nat) (s : St) (b : Best), (∃ p ∈ s, |t - p.1| < b.diff) →
      ∃ e', ((search t n s b).1).expr = some e' := by
  intro n s b himp
  have hsome : ∃ e', ((checkVals t s b).1).expr = some e' := checkVals_improve t s b himp
  cases n with
  | zero => exact hsome
  | succ n =>
    rcases hcv : checkVals t s b with ⟨b1, flag⟩
    rw [hcv] at hsome
    cases flag with
    | true => simp only [search, hcv]; exact hsome
    | false =>
      simp only [search, hcv]
      by_cases hlen : s.length ≤ 1
      · rw [if_pos hlen]; exact hsome
      · rw [if_neg hlen]
        rcases h : ((cands s).foldl
            (fun acc c => if acc.2 then acc else search t n c acc.1) (b1, false)).1.expr with _ | e'
        · exfalso
          have hfold : ∀ (cs : List St) (acc : Best × Bool),
              (((cs.foldl (fun acc c => if acc.2 then acc else search t n c acc.1) acc).1).expr = none →
                acc.1.expr = none) := by
            intro cs
            induction cs with
            | nil => intro acc hh; exact hh
            | cons c rest ihc =>
              intro acc
              simp only [List.foldl_cons]
              by_cases hf : acc.2
              · rw [if_pos hf]; exact ihc acc
              · rw [if_neg hf]
                intro hh
                exact search_expr_none t n c acc.1 (ihc _ hh)
          have hb1none : b1.expr = none := hfold (cands s) (b1, false) h
          obtain ⟨e', he'⟩ := hsome
          have he2 : b1.expr = some e' := he'
          rw [hb1none] at he2
          exact Option.noConfusion he2
        · exact ⟨e', h⟩

/-! ### Characterization of `solve` -/

/-- The initial search state: one literal pair per input number. -/
def initSt (numbers : List ℤ) : St := numbers.map (fun n => (n, CExpr.lit n))

theorem vstate_initSt (numbers : List ℤ) : VState (initSt numbers) := by
  intro p hp
  simp only [initSt, List.mem_map] at hp
  obtain ⟨n, _, rfl⟩ := hp
  rfl

/-- Whenever some input number is strictly closer to the target than the
initial best distance (which is `target` itself), `solve` returns a recorded
expression evaluating to the returned result, the result is achievable, and no
achievable value is strictly closer to the target. -/
theorem solve_closest (t : ℤ) (numbers : List ℤ) (hex : ∃ n ∈ numbers, |t - n| < t) :
    ∃ e, (solve t numbers).1 = some e ∧ evalQ e = ((solve t numbers).2 : ℚ) ∧
      ReachVal (initSt numbers) (solve t numbers).2 ∧
      ∀ v, ReachVal (initSt numbers) v →
        |t - (solve t numbers).2| ≤ |t - v| := by
  obtain ⟨n, hn, hnlt⟩ := hex
  have hlen : (initSt numbers).length = numbers.length := by simp [initSt]
  have himp : ∃ p ∈ initSt numbers, |t - p.1| < (⟨none, 0, t⟩ : Best).diff :=
    ⟨(n, CExpr.lit n), List.mem_map_of_mem _ hn, hnlt⟩
  obtain ⟨e, he⟩ := search_improve t numbers.length (initSt numbers) ⟨none, 0, t⟩ himp
  have hsound : Sound t (initSt numbers)
      ((search t numbers.length (initSt numbers) ⟨none, 0, t⟩).1) :=
    search_sound t (initSt numbers) (vstate_initSt numbers) numbers.length
      (initSt numbers) ⟨none, 0, t⟩ (Steps.refl _) (Or.inl ⟨rfl, rfl, rfl⟩)
  rcases hsound with ⟨hnone, _, _⟩ | ⟨e', he', heval, hreach, hdiff⟩
  · rw [he] at hnone; simp at hnone
  · refine ⟨e', he', heval, hreach, ?_⟩
    intro v hv
    have := search_opt t numbers.length (initSt numbers) ⟨none, 0, t⟩
      (le_of_eq hlen) v hv
    rw [hdiff] at this
    exact this


/-! ### Attainable values: the closure the search explores, organized by the
sub-multiset of input numbers consumed -/

/-- The values one guarded combination step can produce from operand values
`a` (first) and `b` (second): the four operations of the pair loop, with the
source's guards (subtraction needs `b < a`, division needs `1 < b` and a zero
remainder).  Addition/multiplication guards (`i < j`, operands `≠ 1`) only
restrict which of several equal-valued candidates occur, not the values. -/
def combineVals (a b : ℤ) : List ℤ :=
  [a + b, a * b] ++ (if b < a then [a - b] else []) ++
  (if 1 < b ∧ Int.fmod a b = 0 then [Int.fdiv a b] else [])

/-- `Attains T v`: value `v` is producible by a combination tree consuming
exactly the multiset `T` of input numbers. -/
inductive Attains : Multiset ℤ → ℤ → Prop
  | single (n : ℤ) : Attains {n} n
  | comb {A B : Multiset ℤ} {a b v : ℤ} :
      Attains A a → Attains B b → v ∈ combineVals a b → Attains (A + B) v

theorem attains_ne_zero {T : Multiset ℤ} {v : ℤ} (h : Attains T v) : T ≠ 0 := by
  induction h with
  | single n => simp
  | comb _ _ _ ihA _ =>
    intro h0
    have h1 : _ ≤ (0 : Multiset ℤ) := h0 ▸ Multiset.le_add_right _ _
    exact ihA (Multiset.le_zero.mp h1)

/-- Search-state invariant: every value in the state is attainable from its own
sub-multiset of the initial numbers, and those sub-multisets are pairwise
disjoint (their sum is bounded by the initial multiset). -/
def StInv (M : Multiset ℤ) (s : St) : Prop :=
  ∃ l : List (Multiset ℤ × ℤ),
    (l.map Prod.snd).Perm (s.map Prod.fst) ∧
    (∀ p ∈ l, Attains p.1 p.2) ∧
    (l.map Prod.fst).sum ≤ M

theorem cands_combineVals {c s : St} (h : c ∈ cands s) :
    ∃ (v1 v2 : ℤ) (e1 e2 : CExpr) (rem : St) (v : ℤ) (e : CExpr),
      ((v1, e1) :: (v2, e2) :: rem).Perm s ∧ c = rem ++ [(v, e)] ∧
      v ∈ combineVals v1 v2 := by
  obtain ⟨v1, v2, e1, e2, rem, hperm, hop⟩ := mem_cands_inv h
  rcases hop with hc | ⟨_, _, hc⟩ | ⟨hlt, hc⟩ | ⟨hb, hmod, hc⟩
  · exact ⟨v1, v2, e1, e2, rem, _, _, hperm, hc, by simp [combineVals]⟩
  · exact ⟨v1, v2, e1, e2, rem, _, _, hperm, hc, by simp [combineVals]⟩
  · exact ⟨v1, v2, e1, e2, rem, _, _, hperm, hc, by simp [combineVals, if_pos hlt]⟩
  · exact ⟨v1, v2, e1, e2, rem, _, _, hperm, hc, by simp [combineVals, if_pos (And.intro hb hmod)]⟩

theorem stinv_step {M : Multiset ℤ} {s c : St} (hc : c ∈ cands s) (hinv : StInv M s) :
    StInv M c := by
  obtain ⟨v1, v2, e1, e2, rem, v, e, hperm, hceq, hcomb⟩ := cands_combineVals hc
  obtain ⟨l, hlperm, hatt, hsum⟩ := hinv
  have hmapfst : (((v1, e1) :: (v2, e2) :: rem).map Prod.fst).Perm (s.map Prod.fst) :=
    hperm.map Prod.fst
  have hl1 : (l.map Prod.snd).Perm (v1 :: v2 :: rem.map Prod.fst) := by
    refine hlperm.trans (hmapfst.symm.trans ?_)
    simp
  -- pick the entry attaining v1
  have hv1mem : v1 ∈ l.map Prod.snd := hl1.mem_iff.mpr (by simp)
  obtain ⟨p1, hp1l, hp1v⟩ := List.mem_map.mp hv1mem
  obtain ⟨l1, hlp1⟩ : ∃ l1, l.Perm (p1 :: l1) := ⟨_, List.perm_cons_erase hp1l⟩
  have hl2 : (l1.map Prod.snd).Perm (v2 :: rem.map Prod.fst) := by
    have := (hlp1.map Prod.snd).symm.trans hl1
    rw [List.map_cons, hp1v] at this
    exact this.cons_inv
  have hv2mem : v2 ∈ l1.map Prod.snd := hl2.mem_iff.mpr (by simp)
  obtain ⟨p2, hp2l, hp2v⟩ := List.mem_map.mp hv2mem
  obtain ⟨l2, hlp2⟩ : ∃ l2, l1.Perm (p2 :: l2) := ⟨_, List.perm_cons_erase hp2l⟩
  have hl3 : (l2.map Prod.snd).Perm (rem.map Prod.fst) := by
    have := (hlp2.map Prod.snd).symm.trans hl2
    rw [List.map_cons, hp2v] at this
    exact this.cons_inv
  refine ⟨l2 ++ [(p1.1 + p2.1, v)], ?_, ?_, ?_⟩
  · rw [hceq]
    simp only [List.map_append, List.map_cons, List.map_nil]
    exact hl3.append (List.Perm.refl [v])
  · intro p hp
    rcases List.mem_append.mp hp with hp' | hp'
    · have hpl : p ∈ l := hlp1.mem_iff.mpr
        (List.mem_cons_of_mem _ (hlp2.mem_iff.mpr (List.mem_cons_of_mem _ hp')))
      exact hatt p hpl
    · simp at hp'
      subst hp'
      have hp2inl : p2 ∈ l := hlp1.mem_iff.mpr
        (List.mem_cons_of_mem _ (hlp2.mem_iff.mpr (List.mem_cons_self _ _)))
      have ha1 : Attains p1.1 v1 := hp1v ▸ hatt p1 hp1l
      have ha2 : Attains p2.1 v2 := hp2v ▸ hatt p2 hp2inl
      exact Attains.comb ha1 ha2 hcomb
  · have hperm_l : l.Perm (p1 :: p2 :: l2) :=
      hlp1.trans (hlp2.cons p1)
    have hsum_eq : ((l2 ++ [(p1.1 + p2.1, v)]).map Prod.fst).sum =
        ((l.map Prod.fst).sum) := by
      have h1 := (hperm_l.map Prod.fst).sum_eq
      simp only [List.map_cons] at h1
      simp only [List.map_append, List.map_cons, List.map_nil, List.sum_append,
        List.sum_cons, List.sum_nil] at h1 ⊢
      rw [h1]
      abel
    rw [hsum_eq]
    exact hsum

theorem stinv_initSt (numbers : List ℤ) : StInv (↑numbers) (initSt numbers) := by
  refine ⟨numbers.map (fun n => ({n}, n)), ?_, ?_, ?_⟩
  · rw [initSt, List.map_map, List.map_map]
    have h1 : (Prod.snd ∘ fun n : ℤ => (({n} : Multiset ℤ), n)) = id := rfl
    have h2 : (Prod.fst ∘ fun n : ℤ => (n, CExpr.lit n)) = id := rfl
    rw [h1, h2]
  · intro p hp
    simp only [List.mem_map] at hp
    obtain ⟨n, _, rfl⟩ := hp
    exact Attains.single n
  · rw [List.map_map]
    have : ∀ (l : List ℤ), ((l.map (Prod.fst ∘ fun n => (({n} : Multiset ℤ), n))).sum : Multiset ℤ) = ↑l := by
      intro l
      induction l with
      | nil => simp
      | cons x xs ih =>
        simp only [List.map_cons, List.sum_cons, ih]
        rfl
    rw [this]

theorem steps_stinv {M : Multiset ℤ} {s u : St} (h : Steps s u) (hinv : StInv M s) :
    StInv M u := by
  induction h with
  | refl s => exact hinv
  | head h1 _ ih => exact ih (stinv_step h1 hinv)

/-- Every achievable value is attainable from some sub-multiset of the input
numbers. -/
theorem reachval_attains {numbers : List ℤ} {v : ℤ}
    (h : ReachVal (initSt numbers) v) :
    ∃ T : Multiset ℤ, T ≤ ↑numbers ∧ Attains T v := by
  obtain ⟨u, hsteps, e, hmem⟩ := h
  obtain ⟨l, hlperm, hatt, hsum⟩ := steps_stinv hsteps (stinv_initSt numbers)
  have hv : v ∈ l.map Prod.snd := by
    rw [hlperm.mem_iff]
    exact List.mem_map.mpr ⟨(v, e), hmem, rfl⟩
  obtain ⟨p, hpl, hpv⟩ := List.mem_map.mp hv
  refine ⟨p.1, ?_, hpv ▸ hatt p hpl⟩
  calc p.1 ≤ (l.map Prod.fst).sum :=
        List.single_le_sum (fun y _ => Multiset.zero_le y) _ (List.mem_map_of_mem _ hpl)
    _ ≤ ↑numbers := hsum

/-! ### The verified enumeration certificate

The closure of `combineVals` over each subset of `[25, 50, 75, 3, 6]` is given
as literal data (`attTable`, computed offline and checked here by `decide`):
one entry per nonempty sublist, listing every attainable value.  Membership is
decided through a bitmask (`tableOf`) so the closure check is cheap. -/

def combineValsN (a b : Nat) : List Nat :=
  [a + b, a * b] ++ (if b < a then [a - b] else []) ++
  (if 1 < b ∧ a % b = 0 then [a / b] else [])

/-- All ways to split a list in two (preserving relative order); each element
goes to exactly one side. -/
def splitsL {α : Type} : List α → List (List α × List α)
  | [] => [([], [])]
  | x :: xs => (splitsL xs).flatMap (fun p => [(x :: p.1, p.2), (p.1, x :: p.2)])

/-- Bitmask with one bit set per element of the list. -/
def tableOf (l : List Nat) : Nat :=
  l.foldr (fun v acc => acc ||| (1 <<< v)) 0

def lookupL (assoc : List (List Nat × List Nat)) (k : List Nat) : Option (List Nat) :=
  (assoc.find? (fun e => e.1 == k)).map (fun e => e.2)

/-- The closure certificate: singleton entries contain their number; for every
entry and every two-sided split of its key, combining any two values of the
sides lands inside the entry's value set. -/
def certCheck (assoc : List (List Nat × List Nat)) : Bool :=
  assoc.all fun e =>
    match e.1 with
    | [x] => e.2.contains x
    | S =>
      let tbl := tableOf e.2
      (splitsL S).all fun p =>
        if p.1.isEmpty || p.2.isEmpty then true
        else match lookupL assoc p.1, lookupL assoc p.2 with
          | some LA, some LB =>
            LA.all fun a => LB.all fun b => (combineValsN a b).all fun r => Nat.testBit tbl r
          | _, _ => false

def attTable : List (List Nat × List Nat) :=
  [([6], [6]),
  ([3], [3]),
  ([3, 6], [2, 3, 9, 18]),
  ([75], [75]),
  ([75, 6], [69, 81, 450]),
  ([75, 3], [25, 72, 78, 225]),
  ([75, 3, 6], [12, 13, 19, 23, 25, 27, 31, 57, 66, 72, 73, 77, 78, 84, 93, 150, 207, 219, 225, 231, 243, 432, 447, 453, 468, 675, 1350]),
  ([50], [50]),
  ([50, 6], [44, 56, 300]),
  ([50, 3], [47, 53, 150]),
  ([50, 3, 6], [25, 32, 41, 47, 48, 52, 53, 59, 68, 100, 132, 144, 150, 156, 168, 282, 297, 303, 318, 450, 900]),
  ([50, 75], [25, 125, 3750]),
  ([50, 75, 6], [4, 9, 19, 31, 119, 131, 150, 225, 375, 400, 500, 625, 750, 3300, 3450, 3744, 3756, 4050, 4200, 22500]),
  ([50, 75, 3], [2, 22, 25, 28, 75, 122, 128, 175, 225, 275, 375, 1250, 3525, 3600, 3747, 3753, 3900, 3975, 11250]),
  ([50, 75, 3, 6], [1, 2, 3, 4, 6, 7, 8, 12, 16, 19, 22, 23, 25, 27, 28, 31, 34, 37, 38, 43, 50, 57, 62, 63, 69, 73, 75, 77, 81, 93, 100, 107, 116, 122, 123, 125, 127, 128, 132, 134, 143, 147, 150, 153, 157, 168, 169, 175, 181, 193, 200, 207, 219, 222, 225, 228, 231, 243, 250, 257, 269, 275, 281, 293, 300, 325, 357, 369, 372, 375, 378, 381, 382, 393, 397, 403, 418, 450, 482, 497, 503, 518, 525, 600, 622, 625, 628, 650, 675, 725, 732, 747, 753, 768, 825, 950, 975, 1050, 1100, 1125, 1150, 1200, 1244, 1248, 1250, 1252, 1256, 1300, 1350, 1400, 1500, 1550, 1650, 1875, 2250, 2400, 2850, 3075, 3168, 3243, 3297, 3300, 3303, 3432, 3447, 3453, 3519, 3525, 3531, 3594, 3600, 3606, 3650, 3657, 3732, 3741, 3747, 3748, 3752, 3753, 3759, 3768, 3807, 3850, 3894, 3900, 3906, 3969, 3975, 3981, 4032, 4047, 4053, 4197, 4200, 4203, 4293, 4368, 4425, 4650, 5100, 7500, 9900, 10350, 10800, 10950, 11232, 11244, 11250, 11256, 11268, 11550, 11700, 12150, 12600, 21150, 21600, 22275, 22350, 22482, 22497, 22503, 22518, 22650, 22725, 23400, 23850, 33750, 67500]),
  ([25], [25]),
  ([25, 6], [19, 31, 150]),
  ([25, 3], [22, 28, 75]),
  ([25, 3, 6], [7, 16, 22, 23, 27, 28, 34, 43, 50, 57, 69, 75, 81, 93, 132, 147, 153, 168, 225, 450]),
  ([25, 75], [3, 50, 100, 1875]),
  ([25, 75, 6], [2, 3, 9, 18, 44, 56, 75, 94, 106, 225, 300, 425, 475, 600, 1425, 1725, 1869, 1881, 2025, 2325, 11250]),
  ([25, 75, 3], [1, 6, 9, 47, 50, 53, 97, 103, 150, 200, 250, 300, 625, 1650, 1800, 1872, 1878, 1950, 2100, 5625]),
  ([25, 75, 3, 6], [1, 2, 3, 5, 6, 7, 9, 12, 13, 15, 18, 21, 25, 27, 32, 36, 37, 38, 41, 44, 47, 48, 50, 52, 53, 54, 56, 57, 59, 68, 72, 75, 78, 82, 91, 93, 97, 98, 100, 102, 103, 109, 118, 125, 132, 144, 150, 156, 168, 175, 182, 194, 200, 206, 207, 218, 222, 225, 228, 232, 243, 244, 250, 256, 268, 275, 282, 294, 297, 300, 303, 306, 312, 313, 318, 325, 350, 375, 407, 422, 428, 443, 450, 457, 472, 475, 478, 493, 525, 575, 582, 597, 603, 618, 619, 623, 625, 627, 631, 650, 675, 700, 775, 900, 1200, 1275, 1325, 1368, 1375, 1422, 1425, 1428, 1482, 1500, 1518, 1644, 1650, 1656, 1722, 1725, 1728, 1782, 1794, 1800, 1806, 1825, 1857, 1866, 1872, 1873, 1877, 1878, 1884, 1893, 1925, 1932, 1944, 1950, 1956, 2022, 2025, 2028, 2094, 2100, 2106, 2232, 2268, 2322, 2325, 2328, 2418, 2550, 3225, 3750, 4275, 5175, 5475, 5607, 5619, 5625, 5631, 5643, 5775, 6075, 6975, 9900, 10800, 11025, 11175, 11232, 11247, 11253, 11268, 11325, 11475, 11700, 12600, 16875, 33750]),
  ([25, 50], [2, 25, 75, 1250]),
  ([25, 50, 6], [3, 4, 8, 12, 19, 31, 69, 81, 100, 150, 200, 275, 325, 450, 950, 1100, 1244, 1256, 1400, 1550, 7500]),
  ([25, 50, 3], [1, 5, 6, 22, 25, 28, 72, 75, 78, 125, 175, 225, 1100, 1175, 1247, 1253, 1325, 1400, 3750]),
  ([25, 50, 3, 6], [1, 2, 4, 5, 6, 7, 9, 11, 12, 13, 15, 16, 18, 19, 20, 22, 23, 24, 25, 27, 28, 30, 31, 34, 36, 43, 50, 57, 66, 69, 72, 73, 75, 77, 78, 81, 82, 84, 93, 97, 100, 103, 107, 118, 119, 125, 131, 132, 143, 147, 150, 153, 157, 168, 169, 175, 181, 182, 193, 197, 203, 207, 218, 219, 225, 231, 243, 257, 272, 275, 278, 293, 300, 307, 322, 328, 343, 350, 375, 400, 425, 432, 447, 450, 453, 468, 475, 500, 600, 625, 675, 750, 800, 825, 875, 893, 925, 947, 953, 968, 975, 1007, 1025, 1050, 1094, 1097, 1100, 1103, 1106, 1150, 1169, 1175, 1181, 1200, 1232, 1241, 1247, 1248, 1252, 1253, 1259, 1268, 1300, 1319, 1325, 1331, 1350, 1394, 1397, 1400, 1403, 1406, 1457, 1475, 1547, 1553, 1568, 1643, 1700, 2150, 2500, 2850, 3300, 3450, 3600, 3732, 3744, 3750, 3756, 3768, 3900, 4050, 4200, 4650, 6600, 7050, 7350, 7425, 7482, 7497, 7503, 7518, 7575, 7650, 7950, 8400, 11250, 22500]),
  ([25, 50, 75], [1, 2, 3, 5, 47, 50, 53, 73, 77, 100, 150, 625, 1175, 1325, 1825, 1875, 1925, 2500, 3125, 3725, 3775, 5000, 5625, 93750]),
  ([25, 50, 75, 6], [1, 2, 3, 4, 5, 6, 7, 8, 9, 11, 12, 15, 16, 18, 20, 21, 25, 29, 30, 32, 34, 41, 44, 47, 48, 52, 53, 56, 59, 63, 67, 68, 71, 72, 75, 78, 79, 83, 87, 94, 100, 106, 125, 132, 138, 144, 150, 156, 162, 168, 175, 200, 225, 250, 275, 282, 297, 300, 303, 318, 350, 375, 400, 425, 438, 448, 450, 452, 462, 475, 525, 550, 600, 619, 631, 650, 725, 775, 800, 875, 900, 1025, 1169, 1175, 1181, 1319, 1325, 1331, 1375, 1425, 1475, 1575, 1625, 1675, 1700, 1725, 1775, 1819, 1831, 1869, 1881, 1919, 1931, 1975, 2025, 2075, 2175, 2200, 2275, 2325, 2375, 2494, 2506, 2800, 2975, 3119, 3131, 3275, 3325, 3425, 3475, 3600, 3719, 3731, 3750, 3769, 3781, 3875, 3900, 4025, 4075, 4175, 4225, 4400, 4700, 4994, 5006, 5175, 5300, 5600, 5619, 5625, 5631, 6075, 7050, 7425, 7500, 7575, 7950, 9375, 10000, 10950, 11200, 11250, 11300, 11550, 12500, 15000, 15625, 18750, 20625, 21250, 22350, 22475, 22525, 22650, 23750, 24375, 30000, 33750, 71250, 82500, 86250, 93300, 93450, 93600, 93744, 93756, 93900, 94050, 94200, 101250, 105000, 116250, 562500]),
  ([25, 50, 75, 3], [1, 2, 3, 4, 5, 6, 7, 8, 9, 11, 15, 23, 27, 33, 36, 39, 41, 42, 44, 47, 49, 50, 51, 53, 56, 59, 69, 70, 74, 75, 76, 80, 81, 97, 100, 103, 141, 144, 147, 150, 153, 156, 159, 200, 219, 223, 227, 231, 250, 300, 350, 375, 400, 450, 550, 575, 622, 625, 628, 675, 700, 1025, 1100, 1172, 1175, 1178, 1225, 1250, 1275, 1322, 1325, 1328, 1400, 1475, 1600, 1650, 1700, 1725, 1750, 1800, 1822, 1828, 1850, 1872, 1875, 1878, 1900, 1922, 1928, 1950, 2000, 2025, 2050, 2100, 2150, 2350, 2497, 2500, 2503, 2650, 2750, 3050, 3122, 3128, 3200, 3500, 3525, 3550, 3575, 3625, 3675, 3722, 3728, 3772, 3778, 3825, 3875, 3925, 3950, 3975, 4000, 4375, 4700, 4850, 4997, 5003, 5150, 5300, 5400, 5475, 5575, 5622, 5625, 5628, 5675, 5775, 5850, 6875, 7500, 9375, 10000, 11175, 11225, 11275, 11325, 12500, 13125, 15000, 16875, 31250, 82500, 88125, 90000, 93525, 93600, 93675, 93747, 93753, 93825, 93900, 93975, 97500, 99375, 105000, 281250]),
  ([25, 50, 75, 3, 6], [1, 2, 3, 4, 5, 6, 7, 8, 9, 10, 11, 12, 13, 14, 15, 16, 17, 18, 19, 20, 21, 22, 23, 24, 25, 26, 27, 28, 29, 30, 31, 32, 33, 35, 36, 37, 38, 39, 41, 42, 43, 44, 45, 46, 47, 48, 49, 50, 51, 52, 53, 54, 55, 56, 57, 59, 60, 62, 63, 64, 65, 66, 68, 69, 70, 71, 72, 73, 74, 75, 76, 77, 78, 79, 80, 81, 82, 84, 86, 87, 88, 90, 91, 93, 94, 95, 96, 97, 98, 99, 100, 101, 102, 103, 104, 105, 106, 107, 109, 111, 112, 114, 118, 122, 123, 125, 128, 129, 132, 135, 138, 141, 143, 144, 146, 147, 148, 150, 152, 153, 154, 156, 157, 159, 162, 165, 168, 171, 172, 175, 177, 178, 182, 186, 189, 193, 194, 197, 198, 200, 201, 203, 204, 205, 206, 207, 209, 213, 216, 217, 218, 219, 221, 222, 223, 225, 227, 228, 229, 231, 232, 233, 234, 237, 241, 243, 244, 245, 246, 247, 249, 250, 252, 253, 256, 257, 261, 262, 263, 264, 268, 272, 275, 278, 279, 282, 285, 288, 291, 293, 294, 297, 299, 300, 301, 303, 306, 309, 312, 313, 315, 318, 321, 325, 332, 336, 344, 345, 347, 350, 353, 354, 356, 357, 362, 363, 368, 369, 372, 375, 378, 381, 382, 393, 394, 396, 397, 400, 403, 405, 406, 407, 414, 418, 420, 422, 423, 425, 428, 430, 432, 434, 435, 438, 441, 443, 444, 445, 447, 449, 450, 451, 453, 455, 456, 457, 459, 462, 465, 466, 468, 470, 472, 475, 477, 478, 480, 486, 493, 500, 504, 507, 522, 525, 528, 532, 543, 544, 547, 550, 553, 556, 568, 569, 573, 575, 576, 577, 581, 582, 597, 600, 603, 607, 616, 618, 619, 622, 623, 624, 625, 627, 628, 631, 632, 634, 643, 647, 650, 653, 657, 668, 669, 673, 675, 677, 681, 682, 693, 694, 700, 706, 707, 722, 725, 728, 743, 750, 757, 772, 775, 778, 782, 793, 797, 800, 803, 818, 825, 846, 850, 864, 868, 872, 875, 878, 882, 891, 893, 894, 897, 900, 903, 906, 909, 918, 925, 932, 936, 937, 938, 950, 954, 968, 975, 1000, 1007, 1019, 1022, 1025, 1028, 1031, 1043, 1050, 1075, 1082, 1094, 1100, 1106, 1125, 1150, 1157, 1166, 1169, 1172, 1173, 1175, 1177, 1178, 1181, 1184, 1193, 1200, 1219, 1223, 1225, 1227, 1231, 1237, 1238, 1244, 1250, 1256, 1262, 1263, 1269, 1273, 1275, 1277, 1281, 1300, 1307, 1314, 1316, 1318, 1319, 1322, 1323, 1325, 1327, 1328, 1331, 1334, 1338, 1343, 1344, 1348, 1350, 1352, 1356, 1362, 1368, 1372, 1375, 1378, 1382, 1386, 1394, 1400, 1406, 1418, 1422, 1425, 1428, 1432, 1450, 1457, 1468, 1469, 1472, 1475, 1478, 1481, 1482, 1493, 1500, 1518, 1525, 1532, 1550, 1557, 1568, 1572, 1575, 1578, 1593, 1594, 1600, 1606, 1622, 1625, 1628, 1643, 1644, 1650, 1656, 1672, 1675, 1678, 1682, 1694, 1697, 1700, 1703, 1706, 1707, 1718, 1719, 1722, 1725, 1728, 1731, 1732, 1743, 1744, 1750, 1756, 1772, 1775, 1778, 1782, 1794, 1800, 1806, 1807, 1816, 1822, 1823, 1825, 1827, 1828, 1832, 1834, 1843, 1844, 1850, 1856, 1857, 1866, 1869, 1872, 1873, 1875, 1877, 1878, 1881, 1882, 1884, 1893, 1894, 1900, 1906, 1907, 1916, 1922, 1923, 1925, 1927, 1928, 1932, 1934, 1943, 1944, 1950, 1956, 1972, 1975, 1978, 1982, 1994, 2000, 2006, 2007, 2019, 2022, 2025, 2028, 2031, 2043, 2044, 2050, 2056, 2068, 2072, 2075, 2078, 2094, 2100, 2106, 2144, 2150, 2156, 2157, 2172, 2175, 2178, 2182, 2193, 2197, 2200, 2203, 2218, 2225, 2232, 2250, 2268, 2272, 2275, 2278, 2282, 2318, 2322, 2325, 2328, 2332, 2344, 2350, 2356, 2368, 2372, 2375, 2378, 2400, 2418, 2425, 2432, 2468, 2475, 2482, 2491, 2494, 2497, 2498, 2500, 2502, 2503, 2506, 2509, 2518, 2525, 2550, 2575, 2600, 2618, 2625, 2632, 2644, 2650, 2656, 2675, 2700, 2744, 2750, 2756, 2775, 2797, 2800, 2803, 2825, 2850, 2875, 2882, 2900, 2925, 2950, 2968, 2972, 2978, 3044, 3050, 3056, 3075, 3100, 3107, 3116, 3122, 3123, 3125, 3127, 3128, 3134, 3143, 3175, 3193, 3194, 3200, 3206, 3218, 3225, 3268, 3272, 3275, 3278, 3300, 3322, 3325, 3328, 3332, 3350, 3375, 3400, 3407, 3422, 3428, 3450, 3457, 3472, 3478, 3494, 3500, 3506, 3507, 3519, 3525, 3531, 3543, 3544, 3550, 3556, 3569, 3575, 3581, 3582, 3597, 3600, 3603, 3618, 3619, 3625, 3631, 3632, 3650, 3657, 3668, 3669, 3675, 3681, 3682, 3693, 3700, 3707, 3716, 3722, 3723, 3727, 3728, 3732, 3734, 3743, 3747, 3750, 3753, 3757, 3766, 3768, 3772, 3773, 3777, 3778, 3782, 3784, 3793, 3800, 3807, 3819, 3825, 3831, 3832, 3843, 3850, 3869, 3872, 3875, 3878, 3881, 3882, 3897, 3900, 3903, 3918, 3919, 3925, 3931, 3944, 3950, 3956, 3957, 3968, 3969, 3975, 3981, 3993, 3994, 4000, 4006, 4007, 4022, 4028, 4050, 4057, 4072, 4078, 4100, 4125, 4172, 4175, 4178, 4200, 4222, 4225, 4228, 4250, 4268, 4275, 4318, 4325, 4343, 4369, 4375, 4381, 4393, 4397, 4400, 4403, 4418, 4425, 4450, 4525, 4532, 4550, 4575, 4625, 4650, 4675, 4694, 4697, 4700, 4703, 4706, 4725, 4800, 4825, 4844, 4850, 4856, 4875, 4900, 4950, 4968, 4982, 4991, 4997, 4998, 5000, 5002, 5003, 5009, 5018, 5025, 5075, 5100, 5125, 5144, 5150, 5156, 5172, 5175, 5178, 5200, 5225, 5294, 5297, 5300, 5303, 5306, 5325, 5375, 5382, 5394, 5400, 5406, 5425, 5432, 5450, 5457, 5469, 5475, 5481, 5493, 5525, 5550, 5557, 5569, 5575, 5581, 5593, 5597, 5603, 5607, 5616, 5618, 5619, 5622, 5623, 5625, 5627, 5628, 5631, 5634, 5643, 5657, 5669, 5675, 5681, 5693, 5700, 5725, 5757, 5768, 5769, 5775, 5781, 5793, 5825, 5832, 5844, 5850, 5856, 5900, 5925, 6025, 6072, 6075, 6078, 6125, 6150, 6225, 6250, 6300, 6318, 6425, 6525, 6600, 6675, 6725, 6800, 6825, 6869, 6875, 6881, 6925, 6975, 7025, 7032, 7047, 7050, 7053, 7068, 7125, 7200, 7275, 7325, 7350, 7407, 7422, 7425, 7428, 7443, 7450, 7475, 7482, 7494, 7497, 7500, 7503, 7506, 7518, 7525, 7550, 7557, 7572, 7575, 7578, 7593, 7650, 7725, 7800, 7875, 7932, 7947, 7950, 7953, 7968, 8025, 8125, 8250, 8325, 8400, 8475, 8525, 8625, 8750, 8800, 8850, 8925, 9100, 9225, 9300, 9357, 9369, 9372, 9375, 9378, 9381, 9393, 9450, 9525, 9550, 9600, 9700, 9825, 9850, 9875, 9900, 9925, 9950, 9975, 9994, 9997, 10000, 10003, 10006, 10075, 10125, 10200, 10275, 10300, 10325, 10350, 10375, 10425, 10450, 10500, 10575, 10725, 10750, 10775, 10800, 10825, 10850, 10900, 10925, 10932, 10947, 10953, 10968, 10975, 11000, 11025, 11075, 11100, 11125, 11157, 11169, 11175, 11181, 11182, 11193, 11197, 11200, 11203, 11207, 11218, 11219, 11225, 11231, 11232, 11243, 11247, 11250, 11253, 11257, 11268, 11269, 11275, 11281, 11282, 11293, 11297, 11303, 11307, 11318, 11319, 11325, 11331, 11343, 11375, 11400, 11425, 11475, 11525, 11532, 11547, 11553, 11568, 11575, 11600, 11625, 11650, 11675, 11700, 11725, 11750, 11775, 11925, 12000, 12050, 12075, 12125, 12150, 12175, 12200, 12225, 12300, 12425, 12494, 12497, 12500, 12503, 12506, 12525, 12550, 12575, 12600, 12625, 12650, 12675, 12800, 12900, 12950, 13119, 13125, 13131, 13200, 13400, 13575, 13650, 13750, 14000, 14100, 14175, 14400, 14475, 14700, 14775, 14850, 14982, 14994, 14997, 15000, 15003, 15006, 15018, 15150, 15225, 15300, 15525, 15550, 15600, 15622, 15625, 15628, 15650, 15700, 15900, 16250, 16350, 16425, 16500, 16800, 16825, 16857, 16869, 16875, 16881, 16893, 16925, 17325, 17500, 18125, 18225, 18300, 18375, 18675, 18732, 18747, 18750, 18753, 18768, 18825, 19125, 19200, 19275, 19800, 19975, 20350, 20400, 20622, 20625, 20628, 20850, 21000, 21100, 21125, 21150, 21175, 21247, 21253, 21300, 21400, 21450, 21575, 21625, 21750, 21975, 22050, 22150, 22250, 22275, 22300, 22325, 22332, 22347, 22353, 22368, 22375, 22425, 22457, 22472, 22478, 22493, 22500, 22507, 22522, 22525, 22528, 22543, 22575, 22625, 22632, 22647, 22653, 22668, 22675, 22700, 22725, 22750, 22850, 22950, 23025, 23250, 23375, 23400, 23425, 23550, 23600, 23700, 23747, 23750, 23753, 23825, 23850, 23875, 23900, 24000, 24150, 24372, 24375, 24378, 24600, 24650, 25175, 25350, 25725, 26250, 27500, 28125, 28200, 28750, 29100, 29700, 29850, 29982, 29997, 30000, 30003, 30018, 30150, 30300, 30900, 30950, 31100, 31150, 31200, 31244, 31248, 31250, 31252, 31256, 31300, 31350, 31400, 31550, 31800, 31875, 32400, 32500, 32850, 33450, 33525, 33600, 33700, 33725, 33732, 33747, 33750, 33753, 33768, 33775, 33800, 33900, 33975, 34050, 34650, 35000, 35100, 35625, 37500, 38750, 41250, 45000, 46875, 50625, 56250, 60000, 61875, 63750, 65625, 66250, 66975, 67050, 67350, 67425, 67475, 67525, 67575, 67650, 67950, 68400, 68750, 69375, 71025, 71100, 71193, 71247, 71250, 71253, 71307, 71400, 71475, 72600, 73125, 74100, 75000, 75525, 75900, 76875, 78750, 79200, 81075, 82050, 82200, 82275, 82368, 82425, 82494, 82497, 82500, 82503, 82506, 82575, 82632, 82725, 82800, 82950, 85800, 86043, 86100, 86175, 86247, 86250, 86253, 86325, 86400, 86457, 87675, 87843, 87975, 88119, 88125, 88131, 88275, 88407, 88575, 89100, 89568, 89700, 89850, 89994, 90000, 90006, 90150, 90300, 90432, 91250, 91425, 92400, 92850, 93075, 93297, 93300, 93303, 93447, 93453, 93519, 93525, 93531, 93594, 93597, 93600, 93603, 93606, 93650, 93669, 93675, 93681, 93700, 93732, 93741, 93747, 93748, 93752, 93753, 93759, 93768, 93800, 93819, 93825, 93831, 93850, 93894, 93897, 93900, 93903, 93906, 93969, 93975, 93981, 94047, 94053, 94197, 94200, 94203, 94425, 94650, 95100, 95175, 96250, 96600, 97032, 97200, 97350, 97494, 97500, 97506, 97650, 97800, 97968, 98925, 99057, 99225, 99369, 99375, 99381, 99525, 99693, 99825, 100800, 101007, 101100, 101175, 101247, 101250, 101253, 101325, 101400, 101493, 104550, 104700, 104775, 104832, 104925, 104994, 104997, 105000, 105003, 105006, 105075, 105168, 105225, 105300, 105450, 107325, 109200, 109275, 110625, 111600, 113400, 116025, 116100, 116157, 116247, 116250, 116253, 116343, 116400, 116475, 117600, 120900, 123225, 127500, 161250, 187500, 213750, 247500, 258750, 270000, 273750, 279900, 280350, 280800, 280950, 281100, 281232, 281244, 281250, 281256, 281268, 281400, 281550, 281700, 282150, 282600, 288750, 292500, 303750, 315000, 348750, 495000, 528750, 540000, 551250, 556875, 558750, 561150, 561600, 562050, 562275, 562350, 562425, 562482, 562497, 562503, 562518, 562575, 562650, 562725, 562950, 563400, 563850, 566250, 568125, 573750, 585000, 596250, 630000, 843750, 1687500])]

set_option maxRecDepth 100000 in
theorem certCheck_attTable : certCheck attTable = true := by decide

set_option maxRecDepth 100000 in
theorem attTable_complete :
    (([25, 50, 75, 3, 6] : List Nat).sublists.all
      (fun S => S.isEmpty || (lookupL attTable S).isSome)) = true := by decide

set_option maxRecDepth 100000 in
theorem attTable_no_952 : attTable.all (fun e => !(e.2.contains 952)) = true := by decide


/-! ### Bridging the certificate to `Attains` -/

theorem splitsL_map {α β : Type} (f : α → β) :
    ∀ l : List α, splitsL (l.map f) = (splitsL l).map (fun p => (p.1.map f, p.2.map f)) := by
  intro l
  induction l with
  | nil => rfl
  | cons x xs ih =>
    simp only [List.map_cons, splitsL, ih, List.flatMap_map, List.map_flatMap]
    apply List.flatMap_congr
    intro p _
    simp

theorem splitsL_sublist {α : Type} :
    ∀ (l : List α) (p : List α × List α), p ∈ splitsL l →
      p.1.Sublist l ∧ p.2.Sublist l := by
  intro l
  induction l with
  | nil =>
    intro p hp
    simp only [splitsL, List.mem_singleton] at hp
    subst hp
    exact ⟨List.Sublist.refl _, List.Sublist.refl _⟩
  | cons x xs ih =>
    intro p hp
    simp only [splitsL, List.mem_flatMap] at hp
    obtain ⟨q, hq, hpq⟩ := hp
    have hqs := ih q hq
    simp only [List.mem_cons, List.mem_singleton, List.not_mem_nil, or_false] at hpq
    rcases hpq with rfl | rfl
    · exact ⟨hqs.1.cons₂ x, hqs.2.cons x⟩
    · exact ⟨hqs.1.cons x, hqs.2.cons₂ x⟩

theorem splitsL_length {α : Type} :
    ∀ (l : List α) (p : List α × List α), p ∈ splitsL l →
      p.1.length + p.2.length = l.length := by
  intro l
  induction l with
  | nil =>
    intro p hp
    simp only [splitsL, List.mem_singleton] at hp
    subst hp; rfl
  | cons x xs ih =>
    intro p hp
    simp only [splitsL, List.mem_flatMap] at hp
    obtain ⟨q, hq, hpq⟩ := hp
    have hqs := ih q hq
    simp only [List.mem_cons, List.mem_singleton, List.not_mem_nil, or_false] at hpq
    rcases hpq with rfl | rfl <;> simp <;> omega

/-- Every multiset decomposition of a list is realized by one of its
two-sided splits. -/
theorem splits_real :
    ∀ (L : List ℤ) (A B : Multiset ℤ), (L : Multiset ℤ) = A + B →
      ∃ pr ∈ splitsL L, (pr.1 : Multiset ℤ) = A ∧ (pr.2 : Multiset ℤ) = B := by
  intro L
  induction L with
  | nil =>
    intro A B h
    have h0 : A + B = 0 := h.symm
    have hA : A ≤ 0 := h0 ▸ Multiset.le_add_right A B
    have hB : B ≤ 0 := h0 ▸ Multiset.le_add_left B A
    exact ⟨([], []), by simp [splitsL], by simp [Multiset.le_zero.mp hA],
      by simp [Multiset.le_zero.mp hB]⟩
  | cons x xs ih =>
    intro A B h
    have hx : x ∈ A + B := by
      rw [← h]
      exact Multiset.mem_cons_self x ↑xs
    rcases Multiset.mem_add.mp hx with hxA | hxB
    · have hA : x ::ₘ A.erase x = A := Multiset.cons_erase hxA
      have h' : (xs : Multiset ℤ) = A.erase x + B := by
        have hstep : (x ::ₘ (xs : Multiset ℤ)) = x ::ₘ (A.erase x + B) := by
          rw [← Multiset.cons_add, hA]
          exact h
        exact (Multiset.cons_inj_right x).mp hstep
      obtain ⟨pr, hpr, h1, h2⟩ := ih (A.erase x) B h'
      refine ⟨(x :: pr.1, pr.2), ?_, ?_, h2⟩
      · simp only [splitsL, List.mem_flatMap]
        exact ⟨pr, hpr, by simp⟩
      · show ((x :: pr.1 : List ℤ) : Multiset ℤ) = A
        rw [← hA, ← h1]
        rfl
    · have hB : x ::ₘ B.erase x = B := Multiset.cons_erase hxB
      have h' : (xs : Multiset ℤ) = A + B.erase x := by
        have hmove : A + B = x ::ₘ (A + B.erase x) := by
          calc A + B = A + (x ::ₘ B.erase x) := by rw [hB]
            _ = (x ::ₘ B.erase x) + A := add_comm _ _
            _ = x ::ₘ (B.erase x + A) := Multiset.cons_add _ _ _
            _ = x ::ₘ (A + B.erase x) := by rw [add_comm]
        exact (Multiset.cons_inj_right x).mp (h.trans hmove)
      obtain ⟨pr, hpr, h1, h2⟩ := ih A (B.erase x) h'
      refine ⟨(pr.1, x :: pr.2), ?_, h1, ?_⟩
      · simp only [splitsL, List.mem_flatMap]
        exact ⟨pr, hpr, by simp⟩
      · show ((x :: pr.2 : List ℤ) : Multiset ℤ) = B
        rw [← hB, ← h2]
        rfl

theorem map_sublist_inv {α β : Type} (f : α → β) :
    ∀ (l : List α) (l' : List β), l'.Sublist (l.map f) →
      ∃ l0 : List α, List.Sublist l0 l ∧ List.map f l0 = l' := by
  intro l
  induction l with
  | nil =>
    intro l' h
    simp only [List.map_nil, List.sublist_nil] at h
    exact ⟨[], List.Sublist.refl _, by simp [h]⟩
  | cons x xs ih =>
    intro l' h
    rw [List.map_cons, List.sublist_cons_iff] at h
    rcases h with h | ⟨r, rfl, hr⟩
    · obtain ⟨l0, hs, hm⟩ := ih l' h
      exact ⟨l0, hs.cons x, hm⟩
    · obtain ⟨l0, hs, hm⟩ := ih r hr
      exact ⟨x :: l0, hs.cons₂ x, by simp [hm]⟩

theorem testBit_tableOf_mem :
    ∀ (l : List Nat) (r : Nat), (tableOf l).testBit r = true → r ∈ l := by
  intro l
  induction l with
  | nil =>
    intro r h
    rw [show tableOf [] = 0 from rfl, Nat.zero_testBit] at h
    exact absurd h (by simp)
  | cons x xs ih =>
    intro r h
    have hx : tableOf (x :: xs) = tableOf xs ||| (1 <<< x) := rfl
    rw [hx, Nat.testBit_lor] at h
    rcases Bool.or_eq_true_iff.mp h with h' | h'
    · exact List.mem_cons_of_mem x (ih r h')
    · rw [Nat.shiftLeft_eq, one_mul] at h'
      by_cases hxr : x = r
      · rw [hxr]; exact List.mem_cons_self r xs
      · rw [Nat.testBit_two_pow_of_ne hxr] at h'
        exact absurd h' (by simp)

theorem combineVals_cast {an bn : ℕ} {v : ℤ} (h : v ∈ combineVals (an : ℤ) (bn : ℤ)) :
    ∃ rn : ℕ, rn ∈ combineValsN an bn ∧ v = (rn : ℤ) := by
  simp only [combineVals, List.mem_append] at h
  rcases h with (h01 | hsub) | hdiv
  all_goals try (simp only [List.mem_cons, List.mem_singleton,
    List.not_mem_nil, or_false] at h01; rcases h01 with rfl | rfl)
  · exact ⟨an + bn, by simp [combineValsN], by push_cast; ring⟩
  · exact ⟨an * bn, by simp [combineValsN], by push_cast; ring⟩
  · split_ifs at hsub with hg
    · simp only [List.mem_singleton] at hsub
      subst hsub
      have hlt : bn < an := by exact_mod_cast hg
      refine ⟨an - bn, ?_, (Int.ofNat_sub hlt.le).symm⟩
      simp [combineValsN, if_pos hlt]
    · simp at hsub
  · split_ifs at hdiv with hg
    · simp only [List.mem_singleton] at hdiv
      subst hdiv
      obtain ⟨hg1, hg2⟩ := hg
      have h1 : 1 < bn := by exact_mod_cast hg1
      have hb0 : (0 : ℤ) ≤ (bn : ℤ) := by positivity
      have hmodN : an % bn = 0 := by
        rw [Int.fmod_eq_emod _ hb0] at hg2
        exact_mod_cast hg2
      refine ⟨an / bn, ?_, ?_⟩
      · simp [combineValsN, if_pos (And.intro h1 hmodN)]
      · rw [Int.fdiv_eq_ediv _ hb0]
        push_cast
        ring
    · simp at hdiv


theorem isEmpty_false_of_ne_nil {l : List ℕ} (h : l ≠ []) : l.isEmpty = false := by
  cases l with
  | nil => exact absurd rfl h
  | cons x xs => rfl

theorem lookupL_entry {assoc : List (List Nat × List Nat)} {k L : List Nat}
    (h : lookupL assoc k = some L) : (k, L) ∈ assoc := by
  unfold lookupL at h
  rcases hf : assoc.find? (fun e => e.1 == k) with _ | e
  · rw [hf] at h; simp at h
  · rw [hf] at h
    simp only [Option.map_some', Option.some_inj] at h
    have hbeq : (e.1 == k) = true := by
      have := List.find?_some hf
      simpa using this
    have hk : e.1 = k := eq_of_beq hbeq
    have hmem := List.mem_of_find?_eq_some hf
    have : e = (k, L) := by
      rw [← hk, ← h]
    rw [← this]
    exact hmem

theorem lookupL_some_of_sublist {LN : List Nat}
    (hsub : List.Sublist LN [25, 50, 75, 3, 6]) (hne : LN ≠ []) :
    ∃ L, lookupL attTable LN = some L := by
  have hc := attTable_complete
  rw [List.all_eq_true] at hc
  have := hc LN (List.mem_sublists.mpr hsub)
  rcases Bool.or_eq_true_iff.mp this with h | h
  · rw [isEmpty_false_of_ne_nil hne] at h
    exact absurd h (by simp)
  · exact Option.isSome_iff_exists.mp h

/-- Extract the closure property of the certificate at one entry, one split and
one pair of operand values. -/
theorem cert_closure {x y : ℕ} {rest L : List ℕ}
    (hmem : ((x :: y :: rest), L) ∈ attTable)
    {pr : List ℕ × List ℕ} (hpr : pr ∈ splitsL (x :: y :: rest))
    (hne1 : pr.1 ≠ []) (hne2 : pr.2 ≠ [])
    {LA LB : List ℕ} (hA : lookupL attTable pr.1 = some LA)
    (hB : lookupL attTable pr.2 = some LB)
    {a b : ℕ} (ha : a ∈ LA) (hb : b ∈ LB) {r : ℕ} (hr : r ∈ combineValsN a b) :
    r ∈ L := by
  have hcert := certCheck_attTable
  rw [certCheck, List.all_eq_true] at hcert
  have hent2 : ((splitsL (x :: y :: rest)).all fun p =>
      if p.1.isEmpty || p.2.isEmpty then true
      else match lookupL attTable p.1, lookupL attTable p.2 with
        | some LA, some LB =>
          LA.all fun a => LB.all fun b => (combineValsN a b).all fun r =>
            Nat.testBit (tableOf L) r
        | _, _ => false) = true := hcert _ hmem
  rw [List.all_eq_true] at hent2
  have hp := hent2 pr hpr
  rw [isEmpty_false_of_ne_nil hne1, isEmpty_false_of_ne_nil hne2] at hp
  simp only [Bool.or_false, if_false] at hp
  rw [hA, hB] at hp
  have hp2 : (LA.all fun a => LB.all fun b => (combineValsN a b).all fun r =>
      Nat.testBit (tableOf L) r) = true := hp
  rw [List.all_eq_true] at hp2
  have hp3 := hp2 a ha
  rw [List.all_eq_true] at hp3
  have hp4 := hp3 b hb
  rw [List.all_eq_true] at hp4
  exact testBit_tableOf_mem L r (hp4 r hr)

/-- Every attainable value over a sub-multiset of the game numbers appears in
the corresponding certificate entry. -/
theorem attains_mem_table {T : Multiset ℤ} {v : ℤ} (h : Attains T v) :
    ∀ LN : List ℕ, List.Sublist LN [25, 50, 75, 3, 6] →
      ((LN.map (fun n : ℕ => (n : ℤ)) : List ℤ) : Multiset ℤ) = T →
      ∃ (L : List ℕ) (vn : ℕ), lookupL attTable LN = some L ∧ v = (vn : ℤ) ∧ vn ∈ L := by
  induction h with
  | single n =>
    intro LN hsub hcoe
    have hLN : LN.map (fun n : ℕ => (n : ℤ)) = [n] := Multiset.coe_eq_singleton.mp hcoe
    rcases LN with _ | ⟨m, _ | ⟨m2, rest⟩⟩
    · simp at hLN
    · simp only [List.map_cons, List.map_nil] at hLN
      injection hLN with h1 _
      obtain ⟨L, hlook⟩ := lookupL_some_of_sublist hsub (by simp)
      have hentry := lookupL_entry hlook
      have hcert := certCheck_attTable
      rw [certCheck, List.all_eq_true] at hcert
      have hent2 : L.contains m = true := hcert _ hentry
      exact ⟨L, m, hlook, h1.symm, by simpa using hent2⟩
    · simp at hLN
  | comb hA hB hv ihA ihB =>
    intro LN hsub hcoe
    obtain ⟨prZ, hprZ, hAZ, hBZ⟩ := splits_real _ _ _ hcoe
    rw [splitsL_map] at hprZ
    obtain ⟨pr, hpr, hpreq⟩ := List.mem_map.mp hprZ
    subst hpreq
    have hpr2 : pr ∈ splitsL LN := hpr
    have hsubs := splitsL_sublist _ pr hpr2
    have hsubA := hsubs.1.trans hsub
    have hsubB := hsubs.2.trans hsub
    obtain ⟨LA, an, hlookA, haan, hanLA⟩ := ihA pr.1 hsubA hAZ
    obtain ⟨LB, bn, hlookB, hbbn, hbnLB⟩ := ihB pr.2 hsubB hBZ
    have hne1 : pr.1 ≠ [] := by
      intro h0
      rw [h0] at hAZ
      exact attains_ne_zero hA hAZ.symm
    have hne2 : pr.2 ≠ [] := by
      intro h0
      rw [h0] at hBZ
      exact attains_ne_zero hB hBZ.symm
    have hlen : 2 ≤ LN.length := by
      have hl := splitsL_length _ pr hpr
      have l1 : 0 < pr.1.length := List.length_pos.mpr hne1
      have l2 : 0 < pr.2.length := List.length_pos.mpr hne2
      omega
    rcases LN with _ | ⟨x, _ | ⟨y, rest⟩⟩
    · simp at hlen
    · simp at hlen
    · obtain ⟨L, hlook⟩ := lookupL_some_of_sublist hsub (by simp)
      have hentry := lookupL_entry hlook
      rw [haan, hbbn] at hv
      obtain ⟨rn, hrnmem, hvrn⟩ := combineVals_cast hv
      exact ⟨L, rn, hlook,  hvrn,
        cert_closure hentry hpr hne1 hne2 hlookA hlookB hanLA hbnLB hrnmem⟩

/-- The classical target `952` is not achievable from the five numbers
`[25, 50, 75, 3, 6]` (the televised puzzle uses `100` as a sixth number). -/
theorem not_reachval_952 : ¬ ReachVal (initSt [25, 50, 75, 3, 6]) 952 := by
  intro h
  obtain ⟨T, hle, hatt⟩ := reachval_attains h
  have hmap : ([25, 50, 75, 3, 6] : List ℤ) =
      ([25, 50, 75, 3, 6] : List ℕ).map (fun n : ℕ => (n : ℤ)) := by simp
  rw [hmap] at hle
  obtain ⟨lt, hlt⟩ : ∃ l : List ℤ, (l : Multiset ℤ) = T := ⟨T.toList, Multiset.coe_toList T⟩
  rw [← hlt] at hle hatt
  obtain ⟨l, hperm, hsubl⟩ := Multiset.coe_le.mp hle
  obtain ⟨LN, hLNsub, hLNmap⟩ := map_sublist_inv _ _ _ hsubl
  have hcoe : ((LN.map (fun n : ℕ => (n : ℤ)) : List ℤ) : Multiset ℤ) = ↑lt := by
    rw [hLNmap]
    exact Multiset.coe_eq_coe.mpr hperm
  obtain ⟨L, vn, hlook, hv, hmem⟩ := attains_mem_table hatt LN hLNsub hcoe
  have hvn : vn = 952 := by exact_mod_cast hv.symm
  have hentry := lookupL_entry hlook
  have hno := attTable_no_952
  rw [List.all_eq_true] at hno
  have hnoL := hno _ hentry
  simp only [Bool.not_eq_true'] at hnoL
  rw [hvn] at hmem
  have : (952 : ℕ) ∈ L := hmem
  have hcontains : L.contains 952 = true := by simpa using this
  rw [hnoL] at hcontains
  exact absurd hcontains (by simp)


/-! ## Claims C1 and C2 -/

/-- C1 (amended): for every target in `[100, 999]`, `solve` on the numbers
`[25, 50, 75, 3, 6]` returns a recorded expression evaluating to an achievable
value whose distance to the target is minimal over all achievable values, and
the distance is at least 1 whenever the target is not exactly achievable; the
spec's example target `952` is itself not achievable from these five numbers
(the classical puzzle needs `100` as a sixth number), so `solve` cannot return
it at distance 0. -/
theorem claim_C1 :
    (¬ ReachVal (initSt [25, 50, 75, 3, 6]) 952) ∧
    ∀ t : ℤ, 100 ≤ t → t ≤ 999 →
      ∃ e, (solve t [25, 50, 75, 3, 6]).1 = some e ∧
        evalQ e = ((solve t [25, 50, 75, 3, 6]).2 : ℚ) ∧
        ReachVal (initSt [25, 50, 75, 3, 6]) (solve t [25, 50, 75, 3, 6]).2 ∧
        (∀ v, ReachVal (initSt [25, 50, 75, 3, 6]) v →
          |t - (solve t [25, 50, 75, 3, 6]).2| ≤ |t - v|) ∧
        (¬ ReachVal (initSt [25, 50, 75, 3, 6]) t →
          1 ≤ |t - (solve t [25, 50, 75, 3, 6]).2|) := by
  refine ⟨not_reachval_952, ?_⟩
  intro t h100 h999
  have hex : ∃ n ∈ ([25, 50, 75, 3, 6] : List ℤ), |t - n| < t := by
    refine ⟨25, by simp, ?_⟩
    rw [abs_of_nonneg (by omega)]
    omega
  obtain ⟨e, h1, h2, h3, h4⟩ := solve_closest t [25, 50, 75, 3, 6] hex
  refine ⟨e, h1, h2, h3, h4, ?_⟩
  intro hnr
  have hne : (solve t [25, 50, 75, 3, 6]).2 ≠ t := by
    intro heq
    exact hnr (heq ▸ h3)
  have : t - (solve t [25, 50, 75, 3, 6]).2 ≠ 0 := by omega
  exact Int.one_le_abs this

/-- C1 counterexample: on the spec's example input the returned value is not
952, refuting the claimed distance 0. -/
theorem claim_C1_counterexample : (solve 952 [25, 50, 75, 3, 6]).2 ≠ 952 := by
  intro heq
  have hex : ∃ n ∈ ([25, 50, 75, 3, 6] : List ℤ), |952 - n| < 952 := by
    refine ⟨25, by simp, by decide⟩
  obtain ⟨e, _, _, h3, _⟩ := solve_closest 952 [25, 50, 75, 3, 6] hex
  rw [heq] at h3
  exact not_reachval_952 h3

/-- C1 witness: the range-wide statement instantiated at target 500. -/
theorem claim_C1_witness :
    (100 : ℤ) ≤ 500 ∧ (500 : ℤ) ≤ 999 ∧
    ∃ e, (solve 500 [25, 50, 75, 3, 6]).1 = some e ∧
      evalQ e = ((solve 500 [25, 50, 75, 3, 6]).2 : ℚ) ∧
      ReachVal (initSt [25, 50, 75, 3, 6]) (solve 500 [25, 50, 75, 3, 6]).2 ∧
      (∀ v, ReachVal (initSt [25, 50, 75, 3, 6]) v →
        |500 - (solve 500 [25, 50, 75, 3, 6]).2| ≤ |500 - v|) ∧
      (¬ ReachVal (initSt [25, 50, 75, 3, 6]) 500 →
        1 ≤ |500 - (solve 500 [25, 50, 75, 3, 6]).2|) :=
  ⟨by decide, by decide, claim_C1.2 500 (by decide) (by decide)⟩

/-- C2 (amended): `solve` returns a non-null expression — in the worst case one
of the original numbers — whenever some input number lies strictly closer to
the target than the initial best distance (the target itself), i.e. whenever
some `n` in the list has `|target - n| < target`; this always holds in game
conditions (targets ≥ 100, positive numbers ≤ 100).  Without that condition
`solve` can return a null expression (see the counterexample), because
`best_diff` is initialized to `target` and a distance must be strictly smaller
to be recorded. -/
theorem claim_C2 :
    ∀ (t : ℤ) (numbers : List ℤ), (∃ n ∈ numbers, |t - n| < t) →
      ∃ e, (solve t numbers).1 = some e ∧
        evalQ e = ((solve t numbers).2 : ℚ) ∧
        ReachVal (initSt numbers) (solve t numbers).2 := by
  intro t numbers hex
  obtain ⟨e, h1, h2, h3, _⟩ := solve_closest t numbers hex
  exact ⟨e, h1, h2, h3⟩

/-- C2 counterexample: on target 1 with the non-empty list `[2]`, `solve`
returns a null expression and value 0, because `|1 - 2| = 1` is not strictly
smaller than the initial best distance `1`. -/
theorem claim_C2_counterexample : solve 1 [2] = (none, 0) := by decide

/-- C2 witness: target 10 with numbers `[3]` satisfies the closeness
condition and yields a non-null expression. -/
theorem claim_C2_witness :
    (∃ n ∈ ([3] : List ℤ), |10 - n| < 10) ∧
    ∃ e, (solve 10 [3]).1 = some e ∧
      evalQ e = ((solve 10 [3]).2 : ℚ) ∧
      ReachVal (initSt [3]) (solve 10 [3]).2 :=
  ⟨⟨3, by decide⟩, claim_C2 10 [3] ⟨3, by decide⟩⟩

/-! ## Expression parser (`src/games/expression_parser.py`, `ExpressionParser`)

`ast.parse` is not modelled: functions that evaluate a parsed expression take
the parse outcome (`Except String AST`, a syntax error or a tree) as an
argument.  Python floats are modelled exactly as `ℚ` (`truediv` on game-sized
integers).  `AST` has one constructor per node kind `_safe_eval` can receive;
`const none` is a `Constant` holding a non-numeric value, `otherNode` is any
other node kind (statements, subscripts, ...). -/

inductive BOp where
  | add
  | sub
  | mult
  | div
  | otherOp (opname : String)
deriving DecidableEq, Repr

inductive UOp where
  | usub
  | uadd
  | otherU
deriving DecidableEq, Repr

inductive AST where
  | const (v : Option ℚ)
  | num (n : ℚ)
  | binop (op : BOp) (l r : AST)
  | unary (op : UOp) (e : AST)
  | expression (b : AST)
  | name (s : String)
  | call (f : AST)
  | attr (e : AST) (fld : String)
  | otherNode
deriving DecidableEq, Repr

/-- `SAFE_OPERATORS`: the allowed binary operators and their meaning. -/
def SAFE_OPERATORS : BOp → Option (ℚ → ℚ → ℚ)
  | .add => some (· + ·)
  | .sub => some (· - ·)
  | .mult => some (· * ·)
  | .div => some (· / ·)
  | .otherOp _ => none

def opName : BOp → String
  | .add => "Add"
  | .sub => "Sub"
  | .mult => "Mult"
  | .div => "Div"
  | .otherOp s => s

/-- `ExpressionParser._safe_eval`: recursive evaluation allowing only numeric
literals, unary `+`/`-`, the four binary operators, and the `Expression`
wrapper; a raised `ValueError` is the `Except.error` case. -/
def safeEval : AST → Except String ℚ
  | .const (some q) => .ok q
  | .const none => .error "Only numeric values allowed"
  | .num n => .ok n
  | .binop op l r =>
    match SAFE_OPERATORS op with
    | none => .error ("Operator not allowed: " ++ opName op)
    | some f =>
      match safeEval l with
      | .error msg => .error msg
      | .ok a =>
        match safeEval r with
        | .error msg => .error msg
        | .ok b =>
          if op = BOp.div ∧ b = 0 then .error "Division by zero"
          else .ok (f a b)
  | .unary .usub e =>
    match safeEval e with
    | .error msg => .error msg
    | .ok v => .ok (-v)
  | .unary .uadd e => safeEval e
  | .unary .otherU _ => .error "Unsupported unary operator"
  | .expression b => safeEval b
  | .name _ => .error "Invalid expression structure"
  | .call _ => .error "Invalid expression structure"
  | .attr _ _ => .error "Invalid expression structure"
  | .otherNode => .error "Invalid expression structure"

/-- The purely arithmetic fragment: numeric literals, allowed binary
operators, unary `+`/`-`, and the `Expression` wrapper. -/
def onlyArith : AST → Bool
  | .const (some _) => true
  | .const none => false
  | .num _ => true
  | .binop op l r => (SAFE_OPERATORS op).isSome && onlyArith l && onlyArith r
  | .unary .usub e => onlyArith e
  | .unary .uadd e => onlyArith e
  | .unary .otherU _ => false
  | .expression b => onlyArith b
  | .name _ => false
  | .call _ => false
  | .attr _ _ => false
  | .otherNode => false

/-- `ALLOWED_CHARS`. -/
def ALLOWED_CHARS : List Char := "0123456789+-*/() ".toList

/-- `ExpressionParser.sanitize`: keep only allowed characters. -/
def sanitize (expression : List Char) : List Char :=
  expression.filter (fun c => ALLOWED_CHARS.contains c)

/-- `not clean_expr.strip()`: after sanitization the only whitespace character
left is the space, so stripping leaves the empty string exactly when every
character is a space. -/
def stripEmpty (cs : List Char) : Bool := cs.all (fun c => c = ' ')

/-- Maximal digit runs converted to integers: `re.findall(r"\d+", s)` followed
by `int(...)`, processed with an optional in-progress number accumulator. -/
def extractNumsAcc : List Char → Option ℤ → List ℤ
  | [], none => []
  | [], some n => [n]
  | c :: rest, acc =>
    if c.isDigit then
      extractNumsAcc rest (some ((acc.getD 0) * 10 + ((c.toNat - 48 : ℕ) : ℤ)))
    else
      match acc with
      | none => extractNumsAcc rest none
      | some n => n :: extractNumsAcc rest none

/-- `ExpressionParser.extract_numbers`. -/
def extract_numbers (cs : List Char) : List ℤ := extractNumsAcc cs none

/-- The `Counter` comparison loop of `validate_numbers`: first offending
number produces the error message. -/
def firstNumErr (used available : List ℤ) : Option String :=
  used.dedup.findSome? (fun n =>
    if available.count n = 0 then
      some ("Number **" ++ toString n ++ "** is not available")
    else if available.count n < used.count n then
      some ("Number **" ++ toString n ++ "** used more times than available")
    else none)

/-- `ExpressionParser.validate_numbers`. -/
def validate_numbers (cs : List Char) (available : List ℤ) : Bool × Option String :=
  match firstNumErr (extract_numbers cs) available with
  | some e => (false, some e)
  | none => (true, none)

/-- `ExpressionParser.evaluate`, with the outcome of `ast.parse` supplied as
`parsed` (a Python `SyntaxError` is `Except.error`); the generic
`except Exception` branch of the source is unreachable in this model. -/
def evaluate (expression : List Char) (parsed : Except String AST) :
    Bool × Option ℚ × Option String :=
  let clean := sanitize expression
  if stripEmpty clean then (false, none, some "Empty expression")
  else
    match parsed with
    | .error msg => (false, none, some ("Invalid syntax: " ++ msg))
    | .ok t =>
      match safeEval t with
      | .ok v => (true, some v, none)
      | .error msg => (false, none, some msg)

structure PVResult where
  valid : Bool
  result : Option ℚ
  error : Option String
  numbers_used : List ℤ
deriving DecidableEq, Repr

/-- `ExpressionParser.parse_and_validate`.  The final normalization step of
the source (replacing a float that is mathematically integral by the equal
`int`) is the identity on the exact rational value and is therefore not
represented. -/
def parse_and_validate (expression : List Char) (parsed : Except String AST)
    (available_numbers : List ℤ) : PVResult :=
  let clean := sanitize expression
  if stripEmpty clean then ⟨false, none, some "Empty expression", []⟩
  else
    let numbers_used := extract_numbers clean
    match validate_numbers clean available_numbers with
    | (false, err) => ⟨false, none, err, numbers_used⟩
    | (true, _) =>
      match evaluate clean parsed with
      | (false, _, err) => ⟨false, none, err, numbers_used⟩
      | (true, r, _) => ⟨true, r, none, numbers_used⟩

theorem sanitize_idem (cs : List Char) : sanitize (sanitize cs) = sanitize cs := by
  simp [sanitize, List.filter_filter]

theorem safeEval_ok_onlyArith :
    ∀ (t : AST) (v : ℚ), safeEval t = .ok v → onlyArith t = true := by
  intro t
  induction t with
  | const o =>
    intro v h
    cases o with
    | none => simp [safeEval] at h
    | some q => rfl
  | num n => intro v _; rfl
  | binop op l r ihl ihr =>
    intro v h
    rw [safeEval] at h
    rcases hop : SAFE_OPERATORS op with _ | f
    · rw [hop] at h; simp at h
    · rw [hop] at h
      rcases hl : safeEval l with msg | a
      · rw [hl] at h; simp at h
      · rw [hl] at h
        rcases hr : safeEval r with msg | b
        · rw [hr] at h; simp at h
        · rw [hr] at h
          simp only [onlyArith, hop, Option.isSome_some, Bool.true_and,
            ihl a hl, ihr b hr, Bool.and_self]
  | unary op e ih =>
    intro v h
    cases op with
    | usub =>
      rw [safeEval] at h
      rcases he : safeEval e with msg | w
      · rw [he] at h; simp at h
      · exact ih w he
    | uadd => exact ih v h
    | otherU => simp [safeEval] at h
  | expression b ih => exact ih
  | name s => intro v h; simp [safeEval] at h
  | call f => intro v h; simp [safeEval] at h
  | attr e fld => intro v h; simp [safeEval] at h
  | otherNode => intro v h; simp [safeEval] at h

theorem safeEval_arith_ok_or_divzero :
    ∀ t : AST, onlyArith t = true →
      (∃ v, safeEval t = .ok v) ∨ safeEval t = .error "Division by zero" := by
  intro t
  induction t with
  | const o =>
    intro h
    cases o with
    | none => simp [onlyArith] at h
    | some q => exact Or.inl ⟨q, rfl⟩
  | num n => intro _; exact Or.inl ⟨n, rfl⟩
  | binop op l r ihl ihr =>
    intro h
    simp only [onlyArith, Bool.and_eq_true] at h
    obtain ⟨⟨hops, hl⟩, hr⟩ := h
    rcases hop : SAFE_OPERATORS op with _ | f
    · rw [hop] at hops; simp at hops
    · rcases ihl hl with ⟨a, ha⟩ | ha
      · rcases ihr hr with ⟨b, hb⟩ | hb
        · by_cases hz : op = BOp.div ∧ b = 0
          · refine Or.inr ?_
            rw [safeEval, hop, ha, hb]
            dsimp only
            rw [if_pos hz]
          · refine Or.inl ⟨f a b, ?_⟩
            rw [safeEval, hop, ha, hb]
            dsimp only
            rw [if_neg hz]
        · refine Or.inr ?_
          rw [safeEval, hop, ha, hb]
      · refine Or.inr ?_
        rw [safeEval, hop, ha]
  | unary op e ih =>
    intro h
    cases op with
    | usub =>
      simp only [onlyArith] at h
      rcases ih h with ⟨v, hv⟩ | hv
      · refine Or.inl ⟨-v, ?_⟩
        rw [safeEval, hv]
      · refine Or.inr ?_
        rw [safeEval, hv]

    | uadd =>
      simp only [onlyArith] at h
      rcases ih h with ⟨v, hv⟩ | hv
      · exact Or.inl ⟨v, hv⟩
      · exact Or.inr hv
    | otherU => simp [onlyArith] at h
  | expression b ih =>
    intro h
    exact ih h
  | name s => intro h; simp [onlyArith] at h
  | call f => intro h; simp [onlyArith] at h
  | attr e fld => intro h; simp [onlyArith] at h
  | otherNode => intro h; simp [onlyArith] at h

/-- C7: the evaluator only ever evaluates pure arithmetic: a successful
`_safe_eval` implies the tree is built solely of numeric literals, unary
`+`/`-`, the four allowed binary operators and the `Expression` wrapper; any
other construct is a hard failure, and identifier, call and attribute nodes in
particular fail immediately with "Invalid expression structure" (so no lookup,
call or attribute access is ever performed). -/
theorem claim_C7 :
    (∀ (t : AST) (v : ℚ), safeEval t = .ok v → onlyArith t = true) ∧
    (∀ t : AST, onlyArith t = false → ∃ msg, safeEval t = .error msg) ∧
    (∀ s, safeEval (AST.name s) = .error "Invalid expression structure") ∧
    (∀ f, safeEval (AST.call f) = .error "Invalid expression structure") ∧
    (∀ e fld, safeEval (AST.attr e fld) = .error "Invalid expression structure") := by
  refine ⟨safeEval_ok_onlyArith, ?_, fun _ => rfl, fun _ => rfl, fun _ _ => rfl⟩
  intro t h
  rcases he : safeEval t with msg | v
  · exact ⟨msg, rfl⟩
  · rw [safeEval_ok_onlyArith t v he] at h
    exact absurd h (by simp)

/-- C7 witness: a numeric literal evaluates and is arithmetic; a bare
identifier is rejected with an error. -/
theorem claim_C7_witness :
    onlyArith (AST.const (some 5)) = true ∧
    (∃ msg, safeEval (AST.name "x") = .error msg) :=
  ⟨claim_C7.1 (AST.const (some 5)) 5 rfl, claim_C7.2.1 (AST.name "x") rfl⟩

/-- C8: expression errors are structured results, never escapes: within the
arithmetic fragment the only possible failure is the distinct
"Division by zero" error; a division whose divisor evaluates to zero errors
exactly so; `parse_and_validate` always populates `error` when `valid` is
false; and when the numbers validate and evaluation hits a division by zero,
the result is `valid = false` with error "Division by zero". -/
theorem claim_C8 :
    (∀ t : AST, onlyArith t = true →
      (∃ v, safeEval t = .ok v) ∨ safeEval t = .error "Division by zero") ∧
    (∀ (l r : AST) (vl : ℚ), safeEval l = .ok vl → safeEval r = .ok 0 →
      safeEval (AST.binop BOp.div l r) = .error "Division by zero") ∧
    (∀ expr parsed available, (parse_and_validate expr parsed available).valid = false →
      (parse_and_validate expr parsed available).error ≠ none) ∧
    (∀ expr parsed available t, stripEmpty (sanitize expr) = false →
      firstNumErr (extract_numbers (sanitize expr)) available = none →
      parsed = .ok t → safeEval t = .error "Division by zero" →
      parse_and_validate expr parsed available =
        ⟨false, none, some "Division by zero", extract_numbers (sanitize expr)⟩) := by
  refine ⟨safeEval_arith_ok_or_divzero, ?_, ?_, ?_⟩
  · intro l r vl hl hr
    rw [safeEval, show SAFE_OPERATORS BOp.div = some (· / ·) from rfl, hl, hr]
    dsimp only
    rw [if_pos (And.intro rfl rfl)]
  · intro expr parsed available
    rw [parse_and_validate]
    by_cases hs : stripEmpty (sanitize expr)
    · rw [if_pos hs]; intro _; simp
    · rw [if_neg hs]
      rcases hv : validate_numbers (sanitize expr) available with ⟨vb, verr⟩
      cases vb with
      | false =>
        have : verr ≠ none := by
          rw [validate_numbers] at hv
          rcases hf : firstNumErr (extract_numbers (sanitize expr)) available with _ | e
          · rw [hf] at hv; simp at hv
          · rw [hf] at hv
            simp only [Prod.mk.injEq] at hv
            rw [← hv.2]
            simp
        simpa using this
      | true =>
        rcases hev : evaluate (sanitize expr) parsed with ⟨eb, er, eerr⟩
        cases eb with
        | false =>
          have : eerr ≠ none := by
            rw [evaluate.eq_def, sanitize_idem, if_neg (by simp [hs])] at hev
            rcases parsed with msg | t
            · dsimp only at hev
              simp only [Prod.mk.injEq] at hev
              rw [← hev.2.2]
              simp
            · dsimp only at hev
              rcases hse : safeEval t with msg | v
              · rw [hse] at hev
                dsimp only at hev
                simp only [Prod.mk.injEq] at hev
                rw [← hev.2.2]
                simp
              · rw [hse] at hev
                dsimp only at hev
                simp at hev
          simpa using this
        | true => intro h; simp at h
  · intro expr parsed available t hs hnum hp hdiv
    subst hp
    rw [parse_and_validate, if_neg (by simp [hs]),
      show validate_numbers (sanitize expr) available = (true, none) by
        rw [validate_numbers, hnum],
      show evaluate (sanitize expr) (Except.ok t) = (false, none, some "Division by zero") by
        rw [evaluate.eq_def, sanitize_idem, if_neg (by simp [hs])]
        dsimp only
        rw [hdiv]]

/-- C8 witness: dividing 1 by 0 inside a validated expression produces the
structured "Division by zero" result. -/
theorem claim_C8_witness :
    stripEmpty (sanitize ("1/0".toList)) = false ∧
    firstNumErr (extract_numbers (sanitize ("1/0".toList))) [1, 0] = none ∧
    safeEval (AST.binop BOp.div (AST.const (some 1)) (AST.const (some 0))) =
      .error "Division by zero" ∧
    parse_and_validate ("1/0".toList)
        (.ok (AST.binop BOp.div (AST.const (some 1)) (AST.const (some 0)))) [1, 0] =
      ⟨false, none, some "Division by zero", extract_numbers (sanitize ("1/0".toList))⟩ :=
  ⟨by decide, by decide,
   claim_C8.2.1 (AST.const (some 1)) (AST.const (some 0)) 1 rfl rfl,
   claim_C8.2.2.2 ("1/0".toList)
     (.ok (AST.binop BOp.div (AST.const (some 1)) (AST.const (some 0)))) [1, 0]
     (AST.binop BOp.div (AST.const (some 1)) (AST.const (some 0)))
     (by decide) (by decide) rfl
     (claim_C8.2.1 (AST.const (some 1)) (AST.const (some 0)) 1 rfl rfl)⟩

/-! ## Game state machine (`src/games/countdown.py`, `CountdownGame`)

The Redis store is modelled as a record of total maps keyed by the same
composite keys the source uses; `set`/`delete`/`hset` become pointwise
function updates (TTLs are not modelled — no claim depends on expiry).
`random.sample(LARGE_NUMBERS, 2)` is modelled by two distinct indices
(distinctness is a hypothesis where needed), `random.choices(SMALL_NUMBERS,
k=3)` by three independent indices, `random.randint(100, 999)` by an offset in
`Fin 900`, and `time.time()` by a rational argument `now`. -/

structure GameLobby where
  host_id : String
  channel_id : String
  server_id : String
  message_id : Option String
  rounds : ℤ
  seconds_per_round : ℤ
  ready_players : List String
  created_at : ℚ

structure GameState where
  target : ℤ
  numbers : List ℤ
  large_numbers : List ℤ
  small_numbers : List ℤ
  start_time : ℚ
  end_time : ℚ
  status : String
  channel_id : String
  started_by : String
  message_id : Option String
  current_round : ℤ
  total_rounds : ℤ
  round_duration : ℤ
  game_scores : String → ℤ

structure Submission where
  user_id : String
  expression : List Char
  result : Option ℤ
  distance : ℤ
  valid : Bool
  error : Option String
  submitted_at : ℚ
deriving DecidableEq, Repr

@[ext]
structure Store where
  games : String → String → Option GameState
  submissions : String → String → String → Option Submission
  lobbies : String → String → Option GameLobby
  leaderboard : String → String → ℤ

def LARGE_NUMBERS : List ℤ := [25, 50, 75, 100]

/-- `list(range(1, 11))`. -/
def SMALL_NUMBERS : List ℤ := [1, 2, 3, 4, 5, 6, 7, 8, 9, 10]

/-- `CountdownGame.generate_numbers` with the random draws as indices. -/
def generate_numbers (li lj : Fin 4) (s1 s2 s3 : Fin 10) :
    List ℤ × List ℤ × List ℤ :=
  let large := [LARGE_NUMBERS.getD li 0, LARGE_NUMBERS.getD lj 0]
  let small := [SMALL_NUMBERS.getD s1 0, SMALL_NUMBERS.getD s2 0, SMALL_NUMBERS.getD s3 0]
  (large ++ small, large, small)

/-- `CountdownGame.generate_target`: `random.randint(100, 999)`. -/
def generate_target (tr : Fin 900) : ℤ := 100 + (tr : ℤ)

def _save_game (st : Store) (sid cid : String) (g : GameState) : Store :=
  { st with games := fun s c => if s = sid ∧ c = cid then some g else st.games s c }

def _delete_game (st : Store) (sid cid : String) : Store :=
  { st with games := fun s c => if s = sid ∧ c = cid then none else st.games s c }

def _save_submission (st : Store) (sid cid uid : String) (sub : Submission) : Store :=
  { st with submissions := fun s c u =>
      if s = sid ∧ c = cid ∧ u = uid then some sub else st.submissions s c u }

def _delete_submissions (st : Store) (sid cid : String) : Store :=
  { st with submissions := fun s c u =>
      if s = sid ∧ c = cid then none else st.submissions s c u }

/-- `CountdownGame.get_active_game`. -/
def get_active_game (st : Store) (sid cid : String) : Option GameState :=
  match st.games sid cid with
  | some g => if g.status = "active" then some g else none
  | none => none

/-- `CountdownGame.create_game`. -/
def create_game (st : Store) (sid cid started_by : String)
    (total_rounds round_duration : ℤ)
    (li lj : Fin 4) (s1 s2 s3 : Fin 10) (tr : Fin 900) (now : ℚ) :
    Except String (GameState × Store) :=
  match get_active_game st sid cid with
  | some _ => .error
      "A game is already active in this channel! Wait for it to finish or use the current one."
  | none =>
    let gen := generate_numbers li lj s1 s2 s3
    let state : GameState := {
      target := generate_target tr
      numbers := gen.1
      large_numbers := gen.2.1
      small_numbers := gen.2.2
      start_time := now
      end_time := now + (round_duration : ℚ)
      status := "active"
      channel_id := cid
      started_by := started_by
      message_id := none
      current_round := 1
      total_rounds := total_rounds
      round_duration := round_duration
      game_scores := fun _ => 0 }
    .ok (state, _save_game st sid cid state)

/-- The cumulative score merge of `advance_round`:
`scores[u] = scores.get(u, 0) + points` for each item. -/
def mergeScores (scores : String → ℤ) (round_points : List (String × ℤ)) : String → ℤ :=
  round_points.foldl (fun m p => fun u => if u = p.1 then m p.1 + p.2 else m u) scores

/-- `CountdownGame.advance_round`.  On the final round the source also sets
`status = "ended"` on the in-memory object just before deleting the record;
the mutated object is not returned, so only the deletion is observable. -/
def advance_round (st : Store) (sid cid : String) (round_points : List (String × ℤ))
    (li lj : Fin 4) (s1 s2 s3 : Fin 10) (tr : Fin 900) (now : ℚ) :
    Except String (Option GameState × Store) :=
  match get_active_game st sid cid with
  | none => .error "No active game"
  | some game =>
    let g1 := { game with game_scores := mergeScores game.game_scores round_points }
    if g1.total_rounds ≤ g1.current_round then
      .ok (none, _delete_game st sid cid)
    else
      let gen := generate_numbers li lj s1 s2 s3
      let g2 := { g1 with
        current_round := g1.current_round + 1
        target := generate_target tr
        numbers := gen.1
        large_numbers := gen.2.1
        small_numbers := gen.2.2
        start_time := now
        end_time := now + (g1.round_duration : ℚ) }
      .ok (some g2, _save_game st sid cid g2)

/-- Python `int()` on an exact rational: truncation toward zero. -/
def pyInt (q : ℚ) : ℤ := Int.tdiv q.num (q.den : ℤ)

/-- `CountdownGame.submit_answer`; `time.time() >= end_time` (`is_expired`)
becomes `end_time ≤ now`. -/
def submit_answer (st : Store) (sid cid uid : String) (expression : List Char)
    (parsed : Except String AST) (now : ℚ) : Except String (Submission × Store) :=
  match get_active_game st sid cid with
  | none => .error "No active game in this channel! Start one with `!countdown`"
  | some game =>
    if game.end_time ≤ now then .error "Time's up! The game has ended."
    else
      match st.submissions sid cid uid with
      | some _ => .error "You already submitted an answer! Wait for results."
      | none =>
        let r := parse_and_validate expression parsed game.numbers
        let sub : Submission :=
          if r.valid then
            -- `result['result']` is always present when `valid` is true
            let q := r.result.getD 0
            { user_id := uid, expression := expression,
              result := some (pyInt q), distance := |game.target - pyInt q|,
              valid := true, error := none, submitted_at := now }
          else
            { user_id := uid, expression := expression, result := none,
              distance := 999999, valid := false, error := r.error,
              submitted_at := now }
        .ok (sub, _save_submission st sid cid uid sub)

/-- The comparison induced by `sorted(valid_subs, key=(distance,
submitted_at))`: lexicographic non-strict order on the key.  Python's sort is
stable; the insertion sort below with this non-strict order computes the same
list. -/
def subLe (a b : Submission) : Prop :=
  a.distance < b.distance ∨ (a.distance = b.distance ∧ a.submitted_at ≤ b.submitted_at)

instance : DecidableRel subLe := fun a b => by unfold subLe; infer_instance

instance : IsTotal Submission subLe := ⟨by
  intro a b
  rcases lt_trichotomy a.distance b.distance with h | h | h
  · exact Or.inl (Or.inl h)
  · rcases le_total a.submitted_at b.submitted_at with h2 | h2
    · exact Or.inl (Or.inr ⟨h, h2⟩)
    · exact Or.inr (Or.inr ⟨h.symm, h2⟩)
  · exact Or.inr (Or.inl h)⟩

instance : IsTrans Submission subLe := ⟨by
  intro a b c hab hbc
  rcases hab with h1 | ⟨h1, h1'⟩ <;> rcases hbc with h2 | ⟨h2, h2'⟩
  · exact Or.inl (h1.trans h2)
  · exact Or.inl (h2 ▸ h1)
  · exact Or.inl (h1 ▸ h2)
  · exact Or.inr ⟨h1.trans h2, h1'.trans h2'⟩⟩

/-- `CountdownGame.determine_winners`. -/
def determine_winners (submissions : List Submission) : List Submission :=
  let valid_subs := submissions.filter (fun s => s.valid)
  if valid_subs.isEmpty then []
  else valid_subs.insertionSort subLe

/-- The point table of `update_scores`. -/
def pointsFor (distance : ℤ) : ℤ :=
  if distance = 0 then 10
  else if distance ≤ 10 then 5
  else if distance ≤ 25 then 2
  else 0

/-- `CountdownGame.update_scores`: `zincrby` becomes a pointwise increment of
the leaderboard map; the returned `points_earned` dict is a partial map. -/
def update_scores (st : Store) (server_id : String) (submissions : List Submission) :
    Store × (String → Option ℤ) :=
  submissions.foldl (fun acc sub =>
    if ¬ sub.valid then acc
    else
      let points := pointsFor sub.distance
      if 0 < points then
        ({ acc.1 with leaderboard := fun s u =>
            if s = server_id ∧ u = sub.user_id then acc.1.leaderboard s u + points
            else acc.1.leaderboard s u },
         fun u => if u = sub.user_id then some points else acc.2 u)
      else acc) (st, fun _ => none)

/-- `CountdownGame.cancel_game`. -/
def cancel_game (st : Store) (sid cid : String) : Bool × Store :=
  match get_active_game st sid cid with
  | none => (false, st)
  | some _ => (true, _delete_submissions (_delete_game st sid cid) sid cid)

/-- `CountdownGame.delete_lobby`: the body only deletes the key; the Python
function has no `return` statement, so its value is `None` — modelled as the
constantly-`none` first component. -/
def delete_lobby (st : Store) (sid cid : String) : Option Bool × Store :=
  (none, { st with lobbies := fun s c => if s = sid ∧ c = cid then none else st.lobbies s c })

/-! ## Claims C3, C4, C5, C6, C9, C10 -/

theorem get_active_game_inv {st : Store} {sid cid : String} {g : GameState}
    (h : get_active_game st sid cid = some g) :
    g.status = "active" ∧ st.games sid cid = some g := by
  unfold get_active_game at h
  rcases hgames : st.games sid cid with _ | g'
  · rw [hgames] at h; simp at h
  · rw [hgames] at h
    dsimp only at h
    by_cases hst : g'.status = "active"
    · rw [if_pos hst] at h
      injection h with h
      subst h
      exact ⟨hst, rfl⟩
    · rw [if_neg hst] at h; simp at h

theorem submit_answer_ok_valid (st : Store) (sid cid uid : String) (expr : List Char)
    (parsed : Except String AST) (now : ℚ) (g : GameState) (q : ℚ)
    (hg : get_active_game st sid cid = some g) (hexp : ¬ (g.end_time ≤ now))
    (hnone : st.submissions sid cid uid = none)
    (hval : (parse_and_validate expr parsed g.numbers).valid = true)
    (hq : (parse_and_validate expr parsed g.numbers).result = some q) :
    ∃ sub st', submit_answer st sid cid uid expr parsed now = .ok (sub, st') ∧
      sub.valid = true ∧ sub.result = some (pyInt q) ∧
      sub.distance = |g.target - pyInt q| := by
  have heq : submit_answer st sid cid uid expr parsed now =
      .ok ({ user_id := uid, expression := expr,
             result := some (pyInt ((parse_and_validate expr parsed g.numbers).result.getD 0)),
             distance := |g.target -
               pyInt ((parse_and_validate expr parsed g.numbers).result.getD 0)|,
             valid := true, error := none, submitted_at := now },
           _save_submission st sid cid uid
             { user_id := uid, expression := expr,
               result := some (pyInt ((parse_and_validate expr parsed g.numbers).result.getD 0)),
               distance := |g.target -
                 pyInt ((parse_and_validate expr parsed g.numbers).result.getD 0)|,
               valid := true, error := none, submitted_at := now }) := by
    rw [submit_answer.eq_def, hg]
    dsimp only
    rw [if_neg hexp, hnone]
    dsimp only
    rw [if_pos hval]
  rw [hq] at heq
  exact ⟨_, _, heq, rfl, rfl, rfl⟩

theorem submit_answer_ok_invalid (st : Store) (sid cid uid : String) (expr : List Char)
    (parsed : Except String AST) (now : ℚ) (g : GameState)
    (hg : get_active_game st sid cid = some g) (hexp : ¬ (g.end_time ≤ now))
    (hnone : st.submissions sid cid uid = none)
    (hval : (parse_and_validate expr parsed g.numbers).valid = false) :
    ∃ sub st', submit_answer st sid cid uid expr parsed now = .ok (sub, st') ∧
      sub.valid = false ∧ sub.distance = 999999 ∧
      sub.error = (parse_and_validate expr parsed g.numbers).error := by
  have heq : submit_answer st sid cid uid expr parsed now =
      .ok ({ user_id := uid, expression := expr, result := none,
             distance := 999999, valid := false,
             error := (parse_and_validate expr parsed g.numbers).error,
             submitted_at := now },
           _save_submission st sid cid uid
             { user_id := uid, expression := expr, result := none,
               distance := 999999, valid := false,
               error := (parse_and_validate expr parsed g.numbers).error,
               submitted_at := now }) := by
    rw [submit_answer.eq_def, hg]
    dsimp only
    rw [if_neg hexp, hnone]
    dsimp only
    rw [if_neg (by simp [hval])]
  exact ⟨_, _, heq, rfl, rfl, rfl⟩

/-- C3 (amended): a submission accepted by `submit_answer` records, for a valid
expression, `distance = |target - int(result)|` where `int` truncates the
evaluator's exact (possibly fractional) value toward zero — the stored result
is that truncated integer — and for an invalid expression the sentinel
distance 999999. -/
theorem claim_C3 :
    ∀ (st : Store) (sid cid uid : String) (expr : List Char) (parsed : Except String AST)
      (now : ℚ) (g : GameState),
      get_active_game st sid cid = some g → ¬ (g.end_time ≤ now) →
      st.submissions sid cid uid = none →
      ((parse_and_validate expr parsed g.numbers).valid = true →
        ∀ q : ℚ, (parse_and_validate expr parsed g.numbers).result = some q →
        ∃ sub st', submit_answer st sid cid uid expr parsed now = .ok (sub, st') ∧
          sub.valid = true ∧ sub.result = some (pyInt q) ∧
          sub.distance = |g.target - pyInt q|) ∧
      ((parse_and_validate expr parsed g.numbers).valid = false →
        ∃ sub st', submit_answer st sid cid uid expr parsed now = .ok (sub, st') ∧
          sub.valid = false ∧ sub.distance = 999999 ∧
          sub.error = (parse_and_validate expr parsed g.numbers).error) := by
  intro st sid cid uid expr parsed now g hg hexp hnone
  exact ⟨fun hval q hq => submit_answer_ok_valid st sid cid uid expr parsed now g q
      hg hexp hnone hval hq,
    fun hval => submit_answer_ok_invalid st sid cid uid expr parsed now g
      hg hexp hnone hval⟩

def c3Game : GameState := {
  target := 100, numbers := [3, 2], large_numbers := [], small_numbers := [],
  start_time := 0, end_time := 100, status := "active", channel_id := "c",
  started_by := "h", message_id := none, current_round := 1, total_rounds := 1,
  round_duration := 60, game_scores := fun _ => 0 }

def c3Store : Store := {
  games := fun s c => if s = "s" ∧ c = "c" then some c3Game else none,
  submissions := fun _ _ _ => none, lobbies := fun _ _ => none,
  leaderboard := fun _ _ => 0 }

def c3Parsed : Except String AST :=
  .ok (.binop .div (.const (some 3)) (.const (some 2)))

theorem pyInt_three_halves : pyInt ((3 : ℚ) / 2) = 1 := by
  have hnum : ((3 : ℚ) / 2).num = 3 := by norm_num
  have hden : (((3 : ℚ) / 2).den : ℤ) = 2 := by norm_num
  unfold pyInt
  rw [hnum, hden]
  decide

/-- C3 counterexample: the evaluator computes the valid fractional value `3/2`
for `"3/2"`, but the recorded distance is `|100 - int(3/2)| = 99`, not the
claimed `|100 - 3/2| = 98.5`. -/
theorem claim_C3_counterexample :
    (parse_and_validate ("3/2".toList) c3Parsed c3Game.numbers).valid = true ∧
    (parse_and_validate ("3/2".toList) c3Parsed c3Game.numbers).result = some ((3 : ℚ) / 2) ∧
    (∃ sub st', submit_answer c3Store "s" "c" "u" ("3/2".toList) c3Parsed 0 = .ok (sub, st') ∧
      sub.distance = 99) ∧
    (99 : ℚ) ≠ |(100 : ℚ) - 3 / 2| := by
  obtain ⟨sub, st', heq, _, _, hdist⟩ :=
    submit_answer_ok_valid c3Store "s" "c" "u" ("3/2".toList) c3Parsed 0 c3Game ((3 : ℚ) / 2)
      rfl (by decide) rfl (by decide) rfl
  refine ⟨by decide, rfl, ⟨sub, st', heq, ?_⟩, ?_⟩
  · rw [hdist, pyInt_three_halves]
    decide
  · rw [abs_of_pos (by norm_num : (0 : ℚ) < 100 - 3 / 2)]
    norm_num

def c3wParsed : Except String AST :=
  .ok (.binop .mult (.const (some 3)) (.const (some 2)))

/-- C3 witness: an integral product records the truncated (here exact) result
and its distance. -/
theorem claim_C3_witness :
    get_active_game c3Store "s" "c" = some c3Game ∧
    (∃ sub st', submit_answer c3Store "s" "c" "u" ("3*2".toList) c3wParsed 0 = .ok (sub, st') ∧
      sub.valid = true ∧ sub.result = some (pyInt ((3 : ℚ) * 2)) ∧
      sub.distance = |c3Game.target - pyInt ((3 : ℚ) * 2)|) :=
  ⟨rfl, (claim_C3 c3Store "s" "c" "u" ("3*2".toList) c3wParsed 0 c3Game rfl (by decide) rfl).1
    (by decide) ((3 : ℚ) * 2) rfl⟩

def c4s1 : Submission := ⟨"u1", [], some 0, 5, true, none, 10⟩

def c4s2 : Submission := ⟨"u2", [], some 0, 5, true, none, 5⟩

def c4s3 : Submission := ⟨"u3", [], some 0, 0, true, none, 20⟩

/-- C4: `determine_winners` returns exactly the valid submissions, sorted
ascending by `(distance, submitted_at)`; the empty list when no submission is
valid; and on the spec's example the distance-0 entry ranks first, then the
distance-5 tie breaks by earlier timestamp. -/
theorem claim_C4 :
    (∀ subs : List Submission,
      (determine_winners subs).Perm (subs.filter (fun s => s.valid)) ∧
      List.Sorted subLe (determine_winners subs)) ∧
    (∀ subs : List Submission, subs.filter (fun s => s.valid) = [] →
      determine_winners subs = []) ∧
    determine_winners [c4s1, c4s2, c4s3] = [c4s3, c4s2, c4s1] := by
  refine ⟨?_, ?_, by decide⟩
  · intro subs
    rw [determine_winners]
    by_cases he : (subs.filter (fun s => s.valid)).isEmpty
    · rw [if_pos he]
      have hnil : subs.filter (fun s => s.valid) = [] := by
        rcases hf : subs.filter (fun s => s.valid) with _ | ⟨a, l⟩
        · exact hf
        · rw [hf] at he; simp at he
      rw [hnil]
      exact ⟨List.Perm.refl _, List.sorted_nil⟩
    · rw [if_neg he]
      exact ⟨List.perm_insertionSort _ _, List.sorted_insertionSort _ _⟩
  · intro subs h
    rw [determine_winners, h]
    rfl

def c4invalid : Submission := ⟨"u4", [], none, 999999, false, some "bad", 1⟩

/-- C4 witness: an all-invalid round yields the empty ranking, and a singleton
valid round is returned as a permutation of itself. -/
theorem claim_C4_witness :
    ([c4invalid].filter (fun s => s.valid) = []) ∧
    determine_winners [c4invalid] = [] ∧
    (determine_winners [c4s1]).Perm ([c4s1].filter (fun s => s.valid)) :=
  ⟨by decide, claim_C4.2.1 [c4invalid] (by decide), (claim_C4.1 [c4s1]).1⟩

theorem mergeScores_apply :
    ∀ (pts : List (String × ℤ)) (m : String → ℤ) (u : String),
      mergeScores m pts u = m u + ((pts.filter (fun p => p.1 = u)).map Prod.snd).sum := by
  intro pts
  induction pts with
  | nil =>
    intro m u
    simp only [List.filter_nil, List.map_nil, List.sum_nil, add_zero]
    rfl
  | cons p rest ih =>
    intro m u
    have hstep : mergeScores m (p :: rest) =
        mergeScores (fun u' => if u' = p.1 then m p.1 + p.2 else m u') rest := by
      rw [mergeScores, List.foldl_cons]
      rfl
    rw [hstep, ih]
    by_cases hu : p.1 = u
    · subst hu
      simp [List.filter_cons]
      ring
    · simp [List.filter_cons, hu, Ne.symm hu]

theorem get_active_game_save (st : Store) (sid cid : String) (g : GameState)
    (h : g.status = "active") :
    get_active_game (_save_game st sid cid g) sid cid = some g := by
  unfold get_active_game _save_game
  dsimp only
  rw [if_pos ⟨rfl, rfl⟩]
  dsimp only
  rw [if_pos h]

/-- C5: `advance_round` on an active game merges the round points additively
per user; on the final round it deletes the game (a subsequent
`get_active_game` is `none`) and returns the `none` sentinel; otherwise it
increments the round, regenerates target and numbers, resets the timer to
`now + round_duration`, persists, and returns the updated state whose scores
are the old scores plus the merged round points. -/
theorem claim_C5 :
    ∀ (st : Store) (sid cid : String) (g : GameState) (pts : List (String × ℤ))
      (li lj : Fin 4) (s1 s2 s3 : Fin 10) (tr : Fin 900) (now : ℚ),
      get_active_game st sid cid = some g →
      (g.total_rounds ≤ g.current_round →
        advance_round st sid cid pts li lj s1 s2 s3 tr now =
          .ok (none, _delete_game st sid cid) ∧
        get_active_game (_delete_game st sid cid) sid cid = none) ∧
      (g.current_round < g.total_rounds →
        ∃ g2, advance_round st sid cid pts li lj s1 s2 s3 tr now =
            .ok (some g2, _save_game st sid cid g2) ∧
          g2.current_round = g.current_round + 1 ∧
          g2.target = generate_target tr ∧
          g2.numbers = (generate_numbers li lj s1 s2 s3).1 ∧
          g2.start_time = now ∧
          g2.end_time = now + (g.round_duration : ℚ) ∧
          (∀ u, g2.game_scores u =
            g.game_scores u + ((pts.filter (fun p => p.1 = u)).map Prod.snd).sum) ∧
          get_active_game (_save_game st sid cid g2) sid cid = some g2) := by
  intro st sid cid g pts li lj s1 s2 s3 tr now hg
  constructor
  · intro hfin
    constructor
    · rw [advance_round.eq_def, hg]
      dsimp only
      rw [if_pos hfin]
    · unfold get_active_game _delete_game
      simp
  · intro hlt
    have hnotfin : ¬ (g.total_rounds ≤ g.current_round) := by omega
    refine ⟨{ g with
        game_scores := mergeScores g.game_scores pts
        current_round := g.current_round + 1
        target := generate_target tr
        numbers := (generate_numbers li lj s1 s2 s3).1
        large_numbers := (generate_numbers li lj s1 s2 s3).2.1
        small_numbers := (generate_numbers li lj s1 s2 s3).2.2
        start_time := now
        end_time := now + (g.round_duration : ℚ) },
      ?_, rfl, rfl, rfl, rfl, rfl, ?_, ?_⟩
    · rw [advance_round.eq_def, hg]
      dsimp only
      rw [if_neg hnotfin]
    · intro u
      exact mergeScores_apply pts g.game_scores u
    · exact get_active_game_save st sid cid _ ((get_active_game_inv hg).1)

def c5Game : GameState := {
  target := 500, numbers := [25, 50, 1, 2, 3], large_numbers := [25, 50],
  small_numbers := [1, 2, 3], start_time := 0, end_time := 60,
  status := "active", channel_id := "c", started_by := "h", message_id := none,
  current_round := 3, total_rounds := 3, round_duration := 60,
  game_scores := fun _ => 0 }

def c5Store : Store := {
  games := fun s c => if s = "s" ∧ c = "c" then some c5Game else none,
  submissions := fun _ _ _ => none, lobbies := fun _ _ => none,
  leaderboard := fun _ _ => 0 }

/-- C5 witness: advancing past the final round of a concrete game deletes it
and returns the sentinel. -/
theorem claim_C5_witness :
    get_active_game c5Store "s" "c" = some c5Game ∧
    c5Game.total_rounds ≤ c5Game.current_round ∧
    (advance_round c5Store "s" "c" [("u", 5)] 0 1 0 0 0 0 0 =
      .ok (none, _delete_game c5Store "s" "c") ∧
     get_active_game (_delete_game c5Store "s" "c") "s" "c" = none) :=
  ⟨rfl, by decide,
   (claim_C5 c5Store "s" "c" c5Game [("u", 5)] 0 1 0 0 0 0 0 rfl).1 (by decide)⟩

def emptyStore : Store :=
  ⟨fun _ _ => none, fun _ _ _ => none, fun _ _ => none, fun _ _ => 0⟩

/-- C6: the point table of `update_scores` is exact — distance 0 gives 10,
distances 1–10 give 5, distances 11–25 give 2, larger distances give 0 with no
leaderboard mutation and no entry in the returned map — and invalid
submissions are skipped entirely. -/
theorem claim_C6 :
    pointsFor 0 = 10 ∧
    (∀ d : ℤ, 1 ≤ d → d ≤ 10 → pointsFor d = 5) ∧
    (∀ d : ℤ, 11 ≤ d → d ≤ 25 → pointsFor d = 2) ∧
    (∀ d : ℤ, 25 < d → pointsFor d = 0) ∧
    (∀ (st : Store) (sid : String) (sub : Submission), sub.valid = false →
      update_scores st sid [sub] = (st, fun _ => none)) ∧
    (∀ (st : Store) (sid : String) (sub : Submission), sub.valid = true →
      pointsFor sub.distance = 0 → update_scores st sid [sub] = (st, fun _ => none)) ∧
    (∀ (st : Store) (sid : String) (sub : Submission), sub.valid = true →
      0 < pointsFor sub.distance →
      (update_scores st sid [sub]).2 sub.user_id = some (pointsFor sub.distance) ∧
      (update_scores st sid [sub]).1.leaderboard sid sub.user_id =
        st.leaderboard sid sub.user_id + pointsFor sub.distance ∧
      (∀ u, u ≠ sub.user_id → (update_scores st sid [sub]).2 u = none)) ∧
    (pointsFor 7 = 5 ∧ pointsFor 20 = 2 ∧ pointsFor 40 = 0) := by
  refine ⟨rfl, ?_, ?_, ?_, ?_, ?_, ?_, by decide, by decide, by decide⟩
  · intro d h1 h2
    rw [pointsFor, if_neg (by omega), if_pos (by omega)]
  · intro d h1 h2
    rw [pointsFor, if_neg (by omega), if_neg (by omega), if_pos (by omega)]
  · intro d h1
    rw [pointsFor, if_neg (by omega), if_neg (by omega), if_neg (by omega)]
  · intro st sid sub hval
    rw [update_scores, List.foldl_cons, List.foldl_nil, if_pos (by simp [hval])]
  · intro st sid sub hval hp0
    rw [update_scores, List.foldl_cons, List.foldl_nil, if_neg (by simp [hval])]
    dsimp only
    rw [hp0, if_neg (by omega)]
  · intro st sid sub hval hppos
    rw [update_scores, List.foldl_cons, List.foldl_nil, if_neg (by simp [hval])]
    dsimp only
    rw [if_pos hppos]
    refine ⟨by simp, by simp, ?_⟩
    intro u hu
    simp [hu]

def c6sub : Submission := ⟨"u", [], some 493, 7, true, none, 0⟩

/-- C6 witness: a valid submission at distance 7 earns 5 points and increments
the leaderboard by 5. -/
theorem claim_C6_witness :
    (1 : ℤ) ≤ 7 ∧ pointsFor 7 = 5 ∧
    (update_scores emptyStore "s" [c6sub]).2 "u" = some (pointsFor (7 : ℤ)) ∧
    (update_scores emptyStore "s" [c6sub]).1.leaderboard "s" "u" =
      emptyStore.leaderboard "s" "u" + pointsFor (7 : ℤ) :=
  ⟨by decide, claim_C6.2.1 7 (by decide) (by decide),
   ((claim_C6.2.2.2.2.2.2.1 emptyStore "s" c6sub rfl (by decide)).1),
   ((claim_C6.2.2.2.2.2.2.1 emptyStore "s" c6sub rfl (by decide)).2.1)⟩

theorem cancelled_game_gone (st : Store) (sid cid : String) :
    get_active_game (_delete_submissions (_delete_game st sid cid) sid cid) sid cid = none := by
  unfold get_active_game _delete_submissions _delete_game
  simp

/-- C9 (amended): `cancel_game` is idempotent cleanup and reports cancelling a
nonexistent game distinctly (`false`, store untouched) from a successful
cancellation (`true`); `delete_lobby` is idempotent cleanup but returns no
value at all (Python `None` in every case), so a nonexistent lobby is *not*
reported distinctly from successful deletion. -/
theorem claim_C9 :
    (∀ (st : Store) (sid cid : String) (g : GameState),
      get_active_game st sid cid = some g → (cancel_game st sid cid).1 = true) ∧
    (∀ (st : Store) (sid cid : String),
      get_active_game st sid cid = none → cancel_game st sid cid = (false, st)) ∧
    (∀ (st : Store) (sid cid : String),
      cancel_game (cancel_game st sid cid).2 sid cid = (false, (cancel_game st sid cid).2)) ∧
    (∀ (st : Store) (sid cid : String), (delete_lobby st sid cid).1 = none) ∧
    (∀ (st : Store) (sid cid : String), (delete_lobby st sid cid).2.lobbies sid cid = none) ∧
    (∀ (st : Store) (sid cid : String),
      delete_lobby (delete_lobby st sid cid).2 sid cid = delete_lobby st sid cid) := by
  refine ⟨?_, ?_, ?_, ?_, ?_, ?_⟩
  · intro st sid cid g hg
    rw [cancel_game, hg]
  · intro st sid cid hg
    rw [cancel_game, hg]
  · intro st sid cid
    rcases hg : get_active_game st sid cid with _ | g
    · have h1 : cancel_game st sid cid = (false, st) := by rw [cancel_game, hg]
      rw [h1]
      dsimp only
      rw [cancel_game, hg]
    · have h1 : cancel_game st sid cid =
          (true, _delete_submissions (_delete_game st sid cid) sid cid) := by
        rw [cancel_game, hg]
      rw [h1]
      dsimp only
      rw [cancel_game, cancelled_game_gone]
  · intro st sid cid
    rfl
  · intro st sid cid
    simp [delete_lobby]
  · intro st sid cid
    rw [delete_lobby, delete_lobby]
    refine Prod.ext rfl ?_
    dsimp only
    refine Store.ext rfl rfl ?_ rfl
    funext s c
    dsimp only
    split_ifs <;> rfl

def c9Lobby : GameLobby := ⟨"h", "c", "s", none, 3, 60, ["h"], 0⟩

def c9With : Store := {
  games := fun _ _ => none, submissions := fun _ _ _ => none,
  lobbies := fun s c => if s = "s" ∧ c = "c" then some c9Lobby else none,
  leaderboard := fun _ _ => 0 }

/-- C9 counterexample: deleting an existing lobby and deleting a nonexistent
one return the same value (`None`), so the not-found case is not reported
distinctly. -/
theorem claim_C9_counterexample :
    c9With.lobbies "s" "c" = some c9Lobby ∧
    emptyStore.lobbies "s" "c" = none ∧
    (delete_lobby c9With "s" "c").1 = (delete_lobby emptyStore "s" "c").1 ∧
    (delete_lobby c9With "s" "c").1 = none :=
  ⟨rfl, rfl, rfl, rfl⟩

/-- C9 witness: a store with an active game cancels with `true`; an empty
store reports `false` and is unchanged. -/
theorem claim_C9_witness :
    get_active_game c3Store "s" "c" = some c3Game ∧
    (cancel_game c3Store "s" "c").1 = true ∧
    get_active_game emptyStore "s" "c" = none ∧
    cancel_game emptyStore "s" "c" = (false, emptyStore) :=
  ⟨rfl, claim_C9.1 c3Store "s" "c" c3Game rfl, rfl, claim_C9.2.1 emptyStore "s" "c" rfl⟩

/-- The round invariant of C10. -/
def goodState (g : GameState) : Prop :=
  g.numbers.length = 5 ∧
  g.numbers = g.large_numbers ++ g.small_numbers ∧
  (∃ a b : ℤ, g.large_numbers = [a, b] ∧ a ≠ b ∧ a ∈ LARGE_NUMBERS ∧ b ∈ LARGE_NUMBERS) ∧
  g.small_numbers.length = 3 ∧
  (∀ x ∈ g.small_numbers, 1 ≤ x ∧ x ≤ 10) ∧
  100 ≤ g.target ∧ g.target ≤ 999

theorem generated_good (li lj : Fin 4) (hij : li ≠ lj) (s1 s2 s3 : Fin 10) (tr : Fin 900) :
    ((generate_numbers li lj s1 s2 s3).1.length = 5) ∧
    ((generate_numbers li lj s1 s2 s3).1 =
      (generate_numbers li lj s1 s2 s3).2.1 ++ (generate_numbers li lj s1 s2 s3).2.2) ∧
    (∃ a b : ℤ, (generate_numbers li lj s1 s2 s3).2.1 = [a, b] ∧ a ≠ b ∧
      a ∈ LARGE_NUMBERS ∧ b ∈ LARGE_NUMBERS) ∧
    ((generate_numbers li lj s1 s2 s3).2.2.length = 3) ∧
    (∀ x ∈ (generate_numbers li lj s1 s2 s3).2.2, 1 ≤ x ∧ x ≤ 10) ∧
    100 ≤ generate_target tr ∧ generate_target tr ≤ 999 := by
  have hlarge : ∀ (a b : Fin 4), a ≠ b →
      LARGE_NUMBERS.getD a 0 ≠ LARGE_NUMBERS.getD b 0 ∧
      LARGE_NUMBERS.getD a 0 ∈ LARGE_NUMBERS := by decide
  have hsmall : ∀ s : Fin 10, 1 ≤ SMALL_NUMBERS.getD s 0 ∧ SMALL_NUMBERS.getD s 0 ≤ 10 := by
    decide
  have htr : (tr : ℕ) < 900 := tr.isLt
  refine ⟨rfl, rfl, ?_, rfl, ?_, ?_, ?_⟩
  · exact ⟨LARGE_NUMBERS.getD li 0, LARGE_NUMBERS.getD lj 0, rfl,
      (hlarge li lj hij).1, (hlarge li lj hij).2, (hlarge lj li (Ne.symm hij)).2⟩
  · intro x hx
    simp only [generate_numbers, List.mem_cons, List.mem_singleton,
      List.not_mem_nil, or_false] at hx
    rcases hx with rfl | rfl | rfl
    · exact hsmall s1
    · exact hsmall s2
    · exact hsmall s3
  · unfold generate_target
    omega
  · unfold generate_target
    omega

/-- C10: every game created by `create_game` and every round regenerated by a
non-final `advance_round` has 5 numbers — 2 distinct large ones from
`{25, 50, 75, 100}` followed by 3 small ones in `1..10` — and a target in
`[100, 999]`; distinctness of the two large draws models
`random.sample`'s without-replacement guarantee. -/
theorem claim_C10 :
    ∀ (li lj : Fin 4), li ≠ lj → ∀ (s1 s2 s3 : Fin 10) (tr : Fin 900),
    (∀ (st : Store) (sid cid sb : String) (rounds dur : ℤ) (now : ℚ)
       (g' : GameState) (st' : Store),
      create_game st sid cid sb rounds dur li lj s1 s2 s3 tr now = .ok (g', st') →
      goodState g') ∧
    (∀ (st : Store) (sid cid : String) (pts : List (String × ℤ)) (now : ℚ)
       (g2 : GameState) (st' : Store),
      advance_round st sid cid pts li lj s1 s2 s3 tr now = .ok (some g2, st') →
      goodState g2) := by
  intro li lj hij s1 s2 s3 tr
  obtain ⟨h1, h2, h3, h4, h5, h6, h7⟩ := generated_good li lj hij s1 s2 s3 tr
  constructor
  · intro st sid cid sb rounds dur now g' st' h
    rw [create_game.eq_def] at h
    rcases hg : get_active_game st sid cid with _ | g0
    · rw [hg] at h
      dsimp only at h
      injection h with h
      obtain ⟨rfl, rfl⟩ := Prod.mk.injEq .. ▸ h
      exact ⟨h1, h2, h3, h4, h5, h6, h7⟩
    · rw [hg] at h; simp at h
  · intro st sid cid pts now g2 st' h
    rw [advance_round.eq_def] at h
    rcases hg : get_active_game st sid cid with _ | g0
    · rw [hg] at h; simp at h
    · rw [hg] at h
      dsimp only at h
      by_cases hfin : g0.total_rounds ≤ g0.current_round
      · rw [if_pos hfin] at h
        simp at h
      · rw [if_neg hfin] at h
        injection h with h
        obtain ⟨hg2, rfl⟩ := Prod.mk.injEq .. ▸ h
        injection hg2 with hg2
        subst hg2
        exact ⟨h1, h2, h3, h4, h5, h6, h7⟩

/-- C10 witness: a concrete creation draw produces a state satisfying the
invariant. -/
theorem claim_C10_witness :
    ((0 : Fin 4) ≠ (1 : Fin 4)) ∧
    ∃ g' st', create_game emptyStore "s" "c" "u" 3 60 0 1 0 0 0 0 0 = .ok (g', st') ∧
      goodState g' :=
  ⟨by decide, ⟨_, _, rfl,
    (claim_C10 0 1 (by decide) 0 0 0 0).1 emptyStore "s" "c" "u" 3 60 0 _ _ rfl⟩⟩

end Countdown

